import Mathlib

/-!
# Verification of the ioBroker ClickHouse history adapter pipeline

A shallow embedding of the pure core of `main.js`: value normalisation
(`prepareValue`, `VALUE_COLUMN_CONFIG` encode/decode), the skip policy engine
(`valuesEqual`, `shouldSkipValue`), history push (`pushHistory`), on-change
reduction (`makeComparableKey`, `reduceOnChange`), table name generation
(`sanitizeDatapointIdentifier`, `generateTableName`) and the write-buffer
flush coordinator (`flushBuffer`), together with theorems checking the
specification's claims against the embedded code.

JavaScript numbers are modelled as rationals (`ℚ`); `NaN` is modelled
explicitly where it can arise.  `JSON.stringify` / `JSON.parse` (used by the
json storage type and the history decoder) are modelled by an executable
serializer and recursive-descent parser over an inductive JSON value type
whose numeric leaves are integers.
-/

namespace ClickhouseAdapter

/-! ## Decimal digit printing and parsing (model of JS number/string conversion) -/

/-- The character for a single decimal digit `d < 10`. -/
def digitChar (d : ℕ) : Char := Char.ofNat (48 + d)

/-- Numeric value of a decimal digit character. -/
def charDigit (c : Char) : ℕ := c.toNat - 48

/-- Is `c` one of `'0'..'9'`? (mirrors what a decimal scanner accepts). -/
def isDigit10 (c : Char) : Bool := decide ('0' ≤ c) && decide (c ≤ '9')

/-- Big-endian decimal digit characters of a positive natural number, fuel
indexed (any fuel of at least `n` is enough). -/
def natCharsAux : ℕ → ℕ → List Char
  | 0, _ => []
  | fuel + 1, n => if n = 0 then [] else natCharsAux fuel (n / 10) ++ [digitChar (n % 10)]

/-- Big-endian decimal digit characters of a natural number, e.g. `123 ↦ "123"`. -/
def natChars (n : ℕ) : List Char :=
  if n = 0 then ['0'] else natCharsAux n n

/-- Big-endian decimal characters of an integer (with `'-'` sign when negative). -/
def intChars (n : ℤ) : List Char :=
  if n < 0 then '-' :: natChars n.natAbs else natChars n.natAbs

/-- Numeric value of a big-endian list of decimal digit characters. -/
def digitsVal (l : List Char) : ℕ := l.foldl (fun a c => 10 * a + charDigit c) 0

/-! ## JSON values, `JSON.stringify` and `JSON.parse`

`prepareValue` (json storage type), `makeComparableKey` and the
`VALUE_COLUMN_CONFIG.json.decode` path of `main.js` rely on the JavaScript
builtins `JSON.stringify` / `JSON.parse`.  We model JSON values as an
inductive type with integer numeric leaves, a canonical serializer and an
executable recursive-descent parser.  The parser accepts the RFC 8259
whitespace characters around tokens (as `JSON.parse` does), which is exactly
what makes a stored string such as " true" decode to a different value. -/

/-- A JavaScript structured (JSON) value.  Numeric leaves are integers;
strings are arbitrary. -/
inductive Json where
  | null : Json
  | bool (b : Bool) : Json
  | num (n : ℤ) : Json
  | str (s : String) : Json
  | arr (elems : List Json) : Json
  | obj (fields : List (String × Json)) : Json

/-- String escaping as performed by `JSON.stringify`: quote and backslash
are escaped (the model's strings contain no control characters). -/
def escapeChars : List Char → List Char
  | [] => []
  | c :: rest => (if c = '"' || c = '\\' then ['\\', c] else [c]) ++ escapeChars rest

mutual

/-- `JSON.stringify` (canonical form: no whitespace), as a character list. -/
def Json.chars : Json → List Char
  | .null => "null".data
  | .bool b => cond b "true".data "false".data
  | .num n => intChars n
  | .str s => '"' :: (escapeChars s.data ++ ['"'])
  | .arr es => '[' :: (Json.charsElems es ++ [']'])
  | .obj fs => '{' :: (Json.charsFields fs ++ ['}'])

/-- Array elements of `JSON.stringify`, comma separated. -/
def Json.charsElems : List Json → List Char
  | [] => []
  | [e] => e.chars
  | e :: rest => e.chars ++ ',' :: Json.charsElems rest

/-- Object fields of `JSON.stringify`, comma separated. -/
def Json.charsFields : List (String × Json) → List Char
  | [] => []
  | [(k, v)] => '"' :: (escapeChars k.data ++ '"' :: ':' :: v.chars)
  | (k, v) :: rest =>
    ('"' :: (escapeChars k.data ++ '"' :: ':' :: v.chars)) ++ ',' :: Json.charsFields rest

end

/-- `JSON.stringify` of a structured value, as a `String`. -/
def Json.stringify (j : Json) : String := String.mk j.chars

/-- The JSON insignificant-whitespace characters (RFC 8259 / `JSON.parse`). -/
def jsonWs (c : Char) : Bool := c = ' ' || c = '\t' || c = '\n' || c = '\r'

/-- Skip leading JSON whitespace. -/
def skipWs (l : List Char) : List Char := l.dropWhile jsonWs

/-- The maximal leading run of decimal digits. -/
def takeDigits (l : List Char) : List Char := l.takeWhile isDigit10

/-- The input after the maximal leading run of decimal digits. -/
def dropDigits (l : List Char) : List Char := l.dropWhile isDigit10

/-- Parse the body of a JSON string literal (after the opening quote) through
its closing quote, undoing `escapeChars`. -/
def parseStrBody : List Char → Option (List Char × List Char)
  | [] => none
  | c :: rest =>
    if c = '"' then some ([], rest)
    else if c = '\\' then
      match rest with
      | [] => none
      | d :: rest2 =>
        if d = '"' || d = '\\' then
          match parseStrBody rest2 with
          | none => none
          | some (s, r) => some (d :: s, r)
        else none
    else
      match parseStrBody rest with
      | none => none
      | some (s, r) => some (c :: s, r)

/-- Parse a JSON integer token (optional minus sign, then a digit run). -/
def parseNumTok (l : List Char) : Option (ℤ × List Char) :=
  match l with
  | [] => none
  | c :: rest =>
    if c = '-' then
      match takeDigits rest with
      | [] => none
      | d :: ds => some (-(digitsVal (d :: ds) : ℤ), dropDigits rest)
    else if isDigit10 c then some ((digitsVal (takeDigits (c :: rest)) : ℤ), dropDigits (c :: rest))
    else none

mutual

/-- Recursive-descent `JSON.parse` of one value (fuel-indexed; `fuel`
exceeding the input length always suffices).  Returns the value and the
unconsumed input. -/
def parseVal : ℕ → List Char → Option (Json × List Char)
  | 0, _ => none
  | fuel + 1, l =>
    match skipWs l with
    | 'n' :: 'u' :: 'l' :: 'l' :: r => some (.null, r)
    | 't' :: 'r' :: 'u' :: 'e' :: r => some (.bool true, r)
    | 'f' :: 'a' :: 'l' :: 's' :: 'e' :: r => some (.bool false, r)
    | '"' :: r =>
      match parseStrBody r with
      | none => none
      | some (s, r2) => some (.str (String.mk s), r2)
    | '[' :: r =>
      match skipWs r with
      | ']' :: r2 => some (.arr [], r2)
      | _ =>
        match parseItems fuel r with
        | none => none
        | some (es, r2) => some (.arr es, r2)
    | '{' :: r =>
      match skipWs r with
      | '}' :: r2 => some (.obj [], r2)
      | _ =>
        match parseFields fuel r with
        | none => none
        | some (fs, r2) => some (.obj fs, r2)
    | c :: r =>
      if c = '-' || isDigit10 c then
        match parseNumTok (c :: r) with
        | none => none
        | some (n, r2) => some (.num n, r2)
      else none
    | [] => none

/-- Parse the element list of a non-empty JSON array, consuming the closing
bracket. -/
def parseItems : ℕ → List Char → Option (List Json × List Char)
  | 0, _ => none
  | fuel + 1, l =>
    match parseVal fuel l with
    | none => none
    | some (v, r) =>
      match skipWs r with
      | ',' :: r2 =>
        match parseItems fuel r2 with
        | none => none
        | some (vs, r3) => some (v :: vs, r3)
      | ']' :: r2 => some ([v], r2)
      | _ => none

/-- Parse the field list of a non-empty JSON object, consuming the closing
brace. -/
def parseFields : ℕ → List Char → Option (List (String × Json) × List Char)
  | 0, _ => none
  | fuel + 1, l =>
    match skipWs l with
    | '"' :: r =>
      match parseStrBody r with
      | none => none
      | some (k, r2) =>
        match skipWs r2 with
        | ':' :: r3 =>
          match parseVal fuel r3 with
          | none => none
          | some (v, r4) =>
            match skipWs r4 with
            | ',' :: r5 =>
              match parseFields fuel r5 with
              | none => none
              | some (fs, r6) => some ((String.mk k, v) :: fs, r6)
            | '}' :: r5 => some ([(String.mk k, v)], r5)
            | _ => none
        | _ => none
    | _ => none

end

/-- `JSON.parse`: parse a whole string (allowing surrounding whitespace,
as `JSON.parse` does); `none` models a thrown `SyntaxError`. -/
def jsonParse (s : String) : Option Json :=
  match parseVal (s.data.length + 1) s.data with
  | some (v, r) => if skipWs r = [] then some v else none
  | none => none

/-! ## JavaScript runtime values

`main.js` manipulates loosely typed JavaScript values.  Numbers are modelled
as rationals with an explicit `nan`; `undefined` and `null` are distinct.
The pipeline never produces `±Infinity` (non-finite conversion results throw
before a value is built), so only `nan` is modelled. -/

/-- A JavaScript value as seen by the pipeline. -/
inductive JSVal where
  | undef : JSVal
  | null : JSVal
  | nan : JSVal
  | num (q : ℚ) : JSVal
  | str (s : String) : JSVal
  | bool (b : Bool) : JSVal
  | obj (j : Json) : JSVal

/-- A JavaScript primitive as used for stored values and comparable keys
(`converted.value` / `converted.comparable` / `entry.lastStoredComparable`).
`prepareValue` never produces `NaN` here (non-finite results throw). -/
inductive Cmp where
  | num (q : ℚ) : Cmp
  | str (s : String) : Cmp
  | bool (b : Bool) : Cmp
  | cnull : Cmp
deriving DecidableEq

/-- The `VALUE_TYPES` tags of `main.js`. -/
inductive ValueType where
  | number : ValueType
  | string : ValueType
  | boolean : ValueType
  | json : ValueType
  | null : ValueType
deriving DecidableEq

/-- `NUMERIC_EPSILON` from `main.js`. -/
def NUMERIC_EPSILON : ℚ := 1 / 10 ^ 12

/-- JavaScript whitespace trimming (`String.prototype.trim`), on character
lists. -/
def trimWs (l : List Char) : List Char :=
  ((l.dropWhile Char.isWhitespace).reverse.dropWhile Char.isWhitespace).reverse

/-- Model of JavaScript string-to-number coercion `Number(s)`: whitespace is
trimmed, the empty string is `0`, an optionally signed digit run is decimal,
anything else is `NaN` (`none`).  Fractional/exponent/hex literals are not
modelled; no reachable pipeline state depends on them. -/
def strToNum (s : String) : Option ℚ :=
  match trimWs s.data with
  | [] => some 0
  | '-' :: ds => if ds ≠ [] ∧ ds.all isDigit10 then some (-(digitsVal ds : ℚ)) else none
  | '+' :: ds => if ds ≠ [] ∧ ds.all isDigit10 then some ((digitsVal ds : ℚ)) else none
  | ds => if ds.all isDigit10 then some ((digitsVal ds : ℚ)) else none

/-- JavaScript `Number(v)` coercion; `none` models `NaN`.  Objects coerce via
`toPrimitive` in JavaScript; the pipeline never coerces objects to numbers on
a reachable path, so they are modelled as `NaN`. -/
def jsToNum : JSVal → Option ℚ
  | .undef => none
  | .null => some 0
  | .nan => none
  | .num q => some q
  | .str s => strToNum s
  | .bool b => some (if b then 1 else 0)
  | .obj _ => none

/-- JavaScript `Number(c)` for stored primitives. -/
def cmpToNum : Cmp → Option ℚ
  | .num q => some q
  | .str s => strToNum s
  | .bool b => some (if b then 1 else 0)
  | .cnull => some 0

/-- JavaScript truthiness of a value. -/
def jsTruthy : JSVal → Bool
  | .undef => false
  | .null => false
  | .nan => false
  | .num q => decide (q ≠ 0)
  | .str s => decide (s ≠ "")
  | .bool b => b
  | .obj _ => true

/-- JavaScript truthiness of a stored primitive. -/
def cmpTruthy : Cmp → Bool
  | .num q => decide (q ≠ 0)
  | .str s => decide (s ≠ "")
  | .bool b => b
  | .cnull => false

/-- Model of JavaScript number-to-string conversion: integers print in
decimal; non-integers print as numerator/denominator.  The exact non-integer
format is not observable by any claim — only that the conversion is a
function of the number. -/
def numToString (q : ℚ) : String :=
  if q.den = 1 then String.mk (intChars q.num)
  else String.mk (intChars q.num) ++ "/" ++ String.mk (natChars q.den)

/-- JavaScript `String(v)`.  (`String(obj)` is `"[object Object]"`-style in
JavaScript; it is modelled by the canonical serialization — no claim
exercises `String` on objects.) -/
def jsValToString : JSVal → String
  | .undef => "undefined"
  | .null => "null"
  | .nan => "NaN"
  | .num q => numToString q
  | .str s => s
  | .bool b => cond b "true" "false"
  | .obj j => j.stringify

/-- JavaScript `String(c)` for stored primitives. -/
def cmpToString : Cmp → String
  | .num q => numToString q
  | .str s => s
  | .bool b => cond b "true" "false"
  | .cnull => "null"

/-- Embed a stored primitive back into the value world. -/
def cmpToJSVal : Cmp → JSVal
  | .num q => .num q
  | .str s => .str s
  | .bool b => .bool b
  | .cnull => .null

/-- `JSON.stringify` of a top-level non-object value (`JSON.stringify(NaN)`
is `"null"`). -/
def jsonStringifyTop : JSVal → String
  | .undef => "undefined"
  | .null => "null"
  | .nan => "null"
  | .num q => numToString q
  | .str s => Json.stringify (.str s)
  | .bool b => cond b "true" "false"
  | .obj j => j.stringify

/-- A parsed JSON value as returned by `JSON.parse` (top-level primitives
come back as primitives). -/
def jsonToJSVal (j : Json) : JSVal :=
  match j with
  | .null => .null
  | .bool b => .bool b
  | .num n => .num (n : ℚ)
  | .str s => .str s
  | .arr es => .obj (.arr es)
  | .obj fs => .obj (.obj fs)

/-! ## Value Normalizer: `prepareValue` and `VALUE_COLUMN_CONFIG` -/

/-- The `storageType` switch key of `prepareValue` (`main.js` lines 748-770):
the lowercased configured string, where any unrecognized value — including
`"auto"` and `"null"` — falls through to auto-detection. -/
inductive StorageKind where
  | number : StorageKind
  | string : StorageKind
  | boolean : StorageKind
  | json : StorageKind
  | auto : StorageKind
deriving DecidableEq

/-- The storage kind selected when re-preparing a value under a table's
registered type (`pushHistory` line 955).  `"null"` is not a case of the
`prepareValue` switch, so it auto-detects. -/
def kindOf : ValueType → StorageKind
  | .number => .number
  | .string => .string
  | .boolean => .boolean
  | .json => .json
  | .null => .auto

/-- Normalized per-point policy configuration (`normalizeStateConfig`). -/
structure Settings where
  storageType : StorageKind
  blockTime : ℚ
  changesOnly : Bool
  ignoreZero : Bool
  ignoreBelowNumber : Option ℚ
  ignoreAboveNumber : Option ℚ
  round : Option ℕ
  changesRelogInterval : ℚ
  changesMinDelta : ℚ
  enableDebugLogs : Bool
  disableSkippedValueLogging : Bool

/-- A Converted Value: type tag, storable value, comparable key. -/
structure Converted where
  type : ValueType
  value : Cmp
  comparable : Cmp
deriving DecidableEq

/-- JavaScript `Math.round` (half-up, ties toward `+∞`). -/
def jsRound (q : ℚ) : ℚ := ⌊q + 1 / 2⌋

/-- `toRoundedNumber` of `prepareValue`: round to the configured number of
digits.  In `ℚ` every value is finite; the JavaScript non-finite check is
modelled at the `Number()` conversion (`jsToNum` returning `none`). -/
def toRoundedNumber (round : Option ℕ) (q : ℚ) : ℚ :=
  match round with
  | some d => jsRound (q * 10 ^ d) / 10 ^ d
  | none => q

/-- The `autoDetect` branch of `prepareValue`: branch on the runtime shape.
A `NaN` number fails the finiteness check inside `toRoundedNumber`. -/
def autoDetect (round : Option ℕ) : JSVal → Except String Converted
  | .num q =>
    .ok ⟨.number, .num (toRoundedNumber round q), .num (toRoundedNumber round q)⟩
  | .nan => .error "Non finite number value"
  | .bool b => .ok ⟨.boolean, .bool b, .bool b⟩
  | .str s => .ok ⟨.string, .str s, .str s⟩
  | .obj j => .ok ⟨.json, .str j.stringify, .str j.stringify⟩
  | v => .ok ⟨.string, .str (jsValToString v), .str (jsValToString v)⟩

/-- `prepareValue` (`main.js` lines 703-771): convert a raw value under the
configured storage type into a typed storable value and comparable key.
A `.error` models the thrown Conversion error. -/
def prepareValue (value : JSVal) (settings : Settings) : Except String Converted :=
  match value with
  | .null => .ok ⟨.null, .cnull, .cnull⟩
  | .undef => .ok ⟨.null, .cnull, .cnull⟩
  | v =>
    match settings.storageType with
    | .number =>
      match jsToNum v with
      | none => .error "Cannot convert value to number"
      | some q =>
        let rounded := toRoundedNumber settings.round q
        .ok ⟨.number, .num rounded, .num rounded⟩
    | .string =>
      let asString := jsValToString v
      .ok ⟨.string, .str asString, .str asString⟩
    | .boolean => .ok ⟨.boolean, .bool (jsTruthy v), .bool (jsTruthy v)⟩
    | .json =>
      let serialized := match v with | .str s => s | v' => jsonStringifyTop v'
      .ok ⟨.json, .str serialized, .str serialized⟩
    | .auto => autoDetect settings.round v

/-- `VALUE_COLUMN_CONFIG[type].encode` (`main.js` lines 15-55): the stored
cell written for a converted value (`none` is the SQL `NULL`). -/
def encodeValue : ValueType → Cmp → Option Cmp
  | .number, .cnull => none
  | .number, c => some c
  | .string, .cnull => none
  | .string, c => some (.str (cmpToString c))
  | .boolean, .cnull => none
  | .boolean, c => some (.num (if cmpTruthy c then 1 else 0))
  | .json, .cnull => none
  | .json, c => some (.str (cmpToString c))
  | .null, _ => none

/-- `VALUE_COLUMN_CONFIG[type].decode` (`main.js` lines 15-55): the value a
history query reconstructs from a stored cell. -/
def decodeValue : ValueType → Option Cmp → JSVal
  | .number, none => .null
  | .number, some c =>
    match cmpToNum c with
    | some q => .num q
    | none => .nan
  | .string, none => .null
  | .string, some c => .str (cmpToString c)
  | .boolean, none => .null
  | .boolean, some c => .bool (c = .num 1 || c = .bool true)
  | .json, none => .null
  | .json, some c =>
    match jsonParse (cmpToString c) with
    | some j => jsonToJSVal j
    | none => cmpToJSVal c
  | .null, _ => .null

/-! ## History Reconstructor: `makeComparableKey` and `reduceOnChange` -/

/-- `makeComparableKey` (`main.js` lines 113-129): the canonical comparable
key of a reconstructed value (`typeof`-prefixed literal for primitives,
canonical serialization for structured values). -/
def makeComparableKey : JSVal → String
  | .null => "__null__"
  | .undef => "__null__"
  | .num q => "number:" ++ numToString q
  | .nan => "number:NaN"
  | .bool b => "boolean:" ++ cond b "true" "false"
  | .str s => "string:" ++ s
  | .obj j => "object:" ++ j.stringify

/-- A reconstructed history entry (`mapRowToHistory` output; only the value
and timestamp are relevant to reduction). -/
structure HistEntry where
  val : JSVal
  ts : ℚ

/-- The loop of `reduceOnChange` (`main.js` lines 131-145): `last` is the
`lastComparable` variable (`none` = `undefined`). -/
def reduceOnChangeAux (last : Option String) : List HistEntry → List HistEntry
  | [] => []
  | e :: rest =>
    let comparable := makeComparableKey e.val
    if last = some comparable then reduceOnChangeAux last rest
    else e :: reduceOnChangeAux (some comparable) rest

/-- `reduceOnChange`: collapse consecutive entries with equal comparable
keys to their first occurrence. -/
def reduceOnChange (entries : List HistEntry) : List HistEntry :=
  reduceOnChangeAux none entries

/-- Specification-side description of on-change reduction: keep exactly the
first entry of each maximal run of consecutive entries with equal comparable
keys, in delivered order.  Stated from the spec's words, to be compared with
`reduceOnChange`. -/
def firstOfEachRun : List HistEntry → List HistEntry
  | [] => []
  | [e] => [e]
  | a :: b :: rest =>
    if makeComparableKey b.val = makeComparableKey a.val then firstOfEachRun (a :: rest)
    else a :: firstOfEachRun (b :: rest)
termination_by l => l.length
decreasing_by all_goals simp

/-! ## Skip Policy Engine: tracked entries, `valuesEqual`, `shouldSkipValue` -/

/-- A cloned incoming sample (the `clonedState` of `pushHistory`). -/
structure SampleState where
  val : JSVal
  ts : ℚ
  lc : ℚ
  ack : Bool
  q : ℚ
  source : String

/-- The last stored sample recorded on a tracked entry. -/
structure StoredState where
  val : Cmp
  ts : ℚ
  lc : ℚ
  type : ValueType
  ack : Bool
  q : ℚ
  source : String

/-- A TrackedPoint entry (`addTrackedDatapoint` / `createEphemeralEntry`).
`relogArmed` models whether a relog timeout handle is pending. -/
structure Entry where
  id : String
  config : Settings
  lastState : Option SampleState
  lastStoredState : Option StoredState
  lastStoredComparable : Option Cmp
  lastLogTime : ℚ
  lastSkippedState : Option SampleState
  relogArmed : Bool
  ephemeral : Bool

/-- `valuesEqual` (`main.js` lines 773-795): equality of an incoming
converted value against the entry's last stored comparable.  The numeric
case requires a numeric last stored comparable and compares with absolute
difference below `NUMERIC_EPSILON` (a non-numeric incoming comparable would
coerce through subtraction; `NaN` comparisons are false). -/
def valuesEqual (converted : Converted) (entry : Entry) : Bool :=
  match entry.lastStoredState with
  | none => false
  | some last =>
    if converted.type ≠ last.type then false
    else
      match converted.type with
      | .number =>
        match entry.lastStoredComparable with
        | some (.num a) =>
          match cmpToNum converted.comparable with
          | some b => decide (|a - b| < NUMERIC_EPSILON)
          | none => false
        | _ => false
      | .boolean => entry.lastStoredComparable = some converted.comparable
      | .string => entry.lastStoredComparable = some converted.comparable
      | .json => entry.lastStoredComparable = some converted.comparable
      | .null =>
        decide (entry.lastStoredComparable = some .cnull) && decide (converted.comparable = .cnull)

/-- The reason a sample was skipped (one per `return true` site of
`shouldSkipValue`). -/
inductive SkipReason where
  | blockTime : SkipReason
  | ignoreZero : SkipReason
  | nullValue : SkipReason
  | belowRange : SkipReason
  | aboveRange : SkipReason
  | unchanged : SkipReason
deriving DecidableEq

/-- The minimum-spacing filter condition (`main.js` lines 819-825). -/
def blockTimeActive (s : Settings) (e : Entry) (st : SampleState) : Bool :=
  match e.lastStoredState with
  | some ls => decide (s.blockTime > 0) && decide (st.ts ≤ ls.ts + s.blockTime)
  | none => false

/-- The numeric-zero part of the `ignoreZero` filter. -/
def zeroValueHit (c : Converted) : Bool :=
  decide (c.type = ValueType.number) && decide (c.comparable = Cmp.num 0)

/-- The lower range clamp condition (`main.js` lines 841-849); comparison
against a `NaN` coercion is false. -/
def belowHit (s : Settings) (c : Converted) : Bool :=
  match s.ignoreBelowNumber with
  | none => false
  | some bound =>
    decide (c.type = ValueType.number) &&
      match cmpToNum c.comparable with
      | some q => decide (q < bound)
      | none => false

/-- The upper range clamp condition (`main.js` lines 851-859). -/
def aboveHit (s : Settings) (c : Converted) : Bool :=
  match s.ignoreAboveNumber with
  | none => false
  | some bound =>
    decide (c.type = ValueType.number) &&
      match cmpToNum c.comparable with
      | some q => decide (q > bound)
      | none => false

/-- `|x - y| < bound` under JavaScript numeric coercion (`NaN` compares
false). -/
def absDiffLt (x y : Cmp) (bound : ℚ) : Bool :=
  match cmpToNum x, cmpToNum y with
  | some a, some b => decide (|a - b| < bound)
  | _, _ => false

/-- The change computation of `shouldSkipValue` (`main.js` lines 861-869):
`valueChanged` from `valuesEqual`, then the `changesMinDelta` dead-band
override for numeric values. -/
def valueChangedCalc (s : Settings) (e : Entry) (c : Converted) : Bool :=
  let valueChanged := !valuesEqual c e
  if valueChanged && decide (c.type = ValueType.number) && e.lastStoredComparable.isSome then
    match e.lastStoredComparable with
    | some lc =>
      if decide (s.changesMinDelta > 0) && absDiffLt c.comparable lc s.changesMinDelta then false
      else valueChanged
    | none => valueChanged
  else valueChanged

/-- The periodic re-log override condition (`main.js` lines 873-880):
`relogMs > 0` and (`lastLogTime` falsy or at least `relogMs` elapsed). -/
def relogDue (s : Settings) (e : Entry) (st : SampleState) : Bool :=
  let relogMs : ℚ := if s.changesRelogInterval > 0 then s.changesRelogInterval * 1000 else 0
  decide (relogMs > 0) && (decide (e.lastLogTime = 0) || decide (st.ts - e.lastLogTime ≥ relogMs))

/-- `shouldSkipValue` (`main.js` lines 815-890): the ordered filter chain.
Returns the skip decision (with the reason for the triggering filter) and
the possibly updated entry (`lastSkippedState` is recorded on an unchanged
skip unless diagnostics are disabled). -/
def shouldSkipValue (e : Entry) (c : Converted) (st : SampleState) (timerRelog : Bool) :
    Option SkipReason × Entry :=
  let s := e.config
  if !timerRelog && blockTimeActive s e st then (some .blockTime, e)
  else if !timerRelog && s.ignoreZero && zeroValueHit c then (some .ignoreZero, e)
  else if !timerRelog && s.ignoreZero && decide (c.type = ValueType.null) then (some .nullValue, e)
  else if belowHit s c then (some .belowRange, e)
  else if aboveHit s c then (some .aboveRange, e)
  else
    let valueChanged := valueChangedCalc s e c
    if !timerRelog && s.changesOnly && e.lastStoredState.isSome && !valueChanged then
      if relogDue s e st then (none, e)
      else if !s.disableSkippedValueLogging then
        (some .unchanged, { e with lastSkippedState := some st })
      else (some .unchanged, e)
    else (none, e)

/-! ## `pushHistory` -/

/-- Registered table info for an identifier. -/
structure TableInfo where
  table : String
  type : ValueType
deriving DecidableEq

/-- A fully prepared row (`buildRow`).  Timestamp formatting
(`formatDateTime`) is kept as the raw millisecond value. -/
structure Row where
  id : String
  table : String
  rtype : ValueType
  ts : ℚ
  value : Option Cmp
deriving DecidableEq

/-- `buildRow` (`main.js` lines 892-902). -/
def buildRow (id : String) (tinfo : TableInfo) (c : Converted) (st : SampleState) : Row :=
  { id := id, table := tinfo.table, rtype := tinfo.type, ts := st.ts,
    value := encodeValue tinfo.type c.value }

/-- An incoming raw sample as delivered to `pushHistory`; `none` fields model
`undefined`/invalid members defaulted by the clone. -/
structure InState where
  val : JSVal
  ts : Option ℚ
  lc : Option ℚ
  ack : Option Bool
  q : Option ℚ
  source : Option String

/-- The `clonedState` built at the top of `pushHistory` (`now` is
`Date.now()`). -/
def cloneState (st : InState) (now : ℚ) : SampleState :=
  { val := st.val, ts := st.ts.getD now, lc := st.lc.getD now, ack := st.ack.getD false,
    q := st.q.getD 0, source := st.source.getD "" }

/-- How a `pushHistory` call ended. -/
inductive PushOutcome where
  | undefinedValue : PushOutcome
  | conversionFailed : PushOutcome
  | prepareFailed : PushOutcome
  | typeMismatch : PushOutcome
  | skipped (r : SkipReason) : PushOutcome
  | stored : PushOutcome
deriving DecidableEq

/-- The re-conversion step of `pushHistory` (`main.js` lines 954-956): when
the registered table type differs from the detected type, the raw value is
re-prepared under the registered storage type. -/
def reconvertForTable (cfg : Settings) (v : JSVal) (tinfo : TableInfo)
    (conv0 : Converted) : Except String Converted :=
  if tinfo.type ≠ conv0.type then prepareValue v { cfg with storageType := kindOf tinfo.type }
  else .ok conv0

/-- `pushHistory` (`main.js` lines 917-1022) on the steady-state path: the
tracked entry exists and the identifier's table is already cached (the
`ensureTableFor` cache hit), so no I/O is modelled.  Returns the outcome,
the updated entry and the updated write buffer.  The batch-size flush
trigger inside `queueRow` is modelled as a separate action of the flush
coordinator. -/
def pushHistoryModel (e : Entry) (buffer : List Row) (id : String) (tinfo : TableInfo)
    (st : InState) (timerRelog : Bool) (now : ℚ) : PushOutcome × Entry × List Row :=
  let cloned := cloneState st now
  match cloned.val with
  | .undef => (.undefinedValue, e, buffer)
  | _ =>
    let e1 := { e with lastState := some cloned }
    match prepareValue cloned.val e.config with
    | .error _ => (.conversionFailed, e1, buffer)
    | .ok conv0 =>
      match reconvertForTable e.config cloned.val tinfo conv0 with
      | .error _ => (.prepareFailed, e1, buffer)
      | .ok c =>
        if c.type ≠ tinfo.type then (.typeMismatch, e1, buffer)
        else
          match shouldSkipValue e1 c cloned timerRelog with
          | (some r, e2) => (.skipped r, e2, buffer)
          | (none, e2) =>
            let row := buildRow id tinfo c cloned
            let newStored : StoredState :=
              { val := c.value, ts := cloned.ts, lc := cloned.lc, type := c.type,
                ack := cloned.ack, q := cloned.q, source := cloned.source }
            let e3 := { e2 with
              lastStoredState := some newStored,
              lastStoredComparable := some c.comparable,
              lastLogTime := cloned.ts,
              lastSkippedState := none,
              relogArmed := decide (e.config.changesRelogInterval > 0) }
            (.stored, e3, buffer ++ [row])

/-! ## Table/Schema Resolver: identifier sanitisation and name generation -/

/-- The permitted identifier character set `[A-Za-z0-9_]`. -/
def allowedIdentChar (c : Char) : Bool := c.isAlpha || c.isDigit || c = '_'

/-- First regex pass of `sanitizeDatapointIdentifier`: each maximal run of
characters outside `[A-Za-z0-9_]` becomes a single underscore (the flag
records being inside such a run). -/
def replaceBadRunsAux : List Char → Bool → List Char
  | [], _ => []
  | c :: rest, inBad =>
    if allowedIdentChar c then c :: replaceBadRunsAux rest false
    else if inBad then replaceBadRunsAux rest true
    else '_' :: replaceBadRunsAux rest true

/-- `replace(/[^a-zA-Z0-9_]+/g, "_")`. -/
def replaceBadRuns (l : List Char) : List Char := replaceBadRunsAux l false

/-- Second regex pass, `replace(/_+/g, "_")`: collapse each underscore run
to a single underscore (the flag records being inside a run). -/
def collapseUnderscoresAux : List Char → Bool → List Char
  | [], _ => []
  | c :: rest, inRun =>
    if c = '_' then
      if inRun then collapseUnderscoresAux rest true
      else '_' :: collapseUnderscoresAux rest true
    else c :: collapseUnderscoresAux rest false

/-- `replace(/_+/g, "_")`. -/
def collapseUnderscores (l : List Char) : List Char := collapseUnderscoresAux l false

/-- Strip leading underscores (`replace(/^_+/, "")`). -/
def stripLeadingUnderscores (l : List Char) : List Char := l.dropWhile (fun c => c = '_')

/-- Strip trailing underscores (`replace(/_+$/, "")`). -/
def stripTrailingUnderscores (l : List Char) : List Char :=
  (l.reverse.dropWhile (fun c => c = '_')).reverse

/-- Does the sanitized identifier start with a digit (`/^[0-9]/`)? -/
def headIsDigit : List Char → Bool
  | [] => false
  | c :: _ => c.isDigit

/-- `sanitizeDatapointIdentifier` (`main.js` lines 307-325). -/
def sanitizeDatapointIdentifier (id : String) : List Char :=
  let s1 := collapseUnderscores (replaceBadRuns (trimWs id.data))
  let s2 := stripTrailingUnderscores (stripLeadingUnderscores s1)
  let s3 := if s2 = [] then 's' :: 't' :: 'a' :: 't' :: 'e' :: [] else s2
  let s4 := if headIsDigit s3 then 's' :: '_' :: s3 else s3
  s4.take 48

/-- `isTableNameInUse` (`main.js` lines 327-335) over the table cache,
modelled as an association list identifier ↦ table info. -/
def isTableNameInUse (cache : List (String × TableInfo)) (name : List Char) (id : String) :
    Bool :=
  cache.any (fun p => p.2.table == String.mk name && p.1 != id)

/-- `normalizeLength` of `generateTableName`: truncate to the identifier
length budget. -/
def normalizeLength (maxLen : ℕ) (l : List Char) : List Char :=
  if l.length ≤ maxLen then l else l.take maxLen

/-- One candidate of the collision loop of `generateTableName` (`main.js`
lines 344-354): the base truncated to leave room for the numeric suffix
(trailing underscores stripped after truncation; the prefix itself as a
fallback), followed by the suffix. -/
def genCandidate (tablePrefix baseName : List Char) (counter : ℕ) : List Char :=
  let suffix := '_' :: natChars counter
  let maxBase := max 1 (62 - suffix.length)
  let t0 := if baseName.length > maxBase then stripTrailingUnderscores (baseName.take maxBase)
    else baseName
  let truncated := if t0 = [] then tablePrefix.take maxBase else t0
  truncated ++ suffix

/-- The collision loop of `generateTableName` (`main.js` lines 343-355),
with the unbounded `while` made explicit through fuel: `none` means the
fuel ran out before a free name was found. -/
def genLoop (cache : List (String × TableInfo)) (tablePrefix baseName : List Char)
    (id : String) : ℕ → ℕ → Option (List Char)
  | 0, _ => none
  | fuel + 1, counter =>
    let candidate := genCandidate tablePrefix baseName counter
    if !isTableNameInUse cache candidate id then some candidate
    else genLoop cache tablePrefix baseName id fuel (counter + 1)

/-- `generateTableName` (`main.js` lines 337-357): prefix + sanitized
identifier, truncated to 62 characters, with a numeric suffix on collision. -/
def generateTableName (cache : List (String × TableInfo)) (tablePrefix : List Char)
    (id : String) (fuel : ℕ) : Option (List Char) :=
  let sanitizedId := sanitizeDatapointIdentifier id
  let baseName := tablePrefix ++ '_' :: sanitizedId
  let candidate := normalizeLength 62 baseName
  if !isTableNameInUse cache candidate id then some candidate
  else genLoop cache tablePrefix baseName id fuel 1

/-! ## Write Buffer & Flush Coordinator: `flushBuffer` (`main.js` lines 1024-1077)

`flushBuffer` is asynchronous; its behaviour is modelled as a labelled
transition system.  The synchronous prefix of a call (all the guards up to
and including the `splice`) runs without yielding and is one transition; an
in-flight write completes in another.  `inFlight` is the list of physical
write sequences currently running (the `_flushPromise` discipline should
keep it at length at most one); `waiters` counts forced callers suspended on
`await this._flushPromise.catch(...)`.  When an in-flight operation settles,
its awaiters resume within the same microtask drain, before any other task
can enqueue a row — so completion and the resumption of all waiters form one
transition (`completeFlight`). -/

/-- The coordinator state. -/
structure FlushSys where
  hasClient : Bool
  buffer : List Row
  inFlight : List (List Row)
  waiters : ℕ
  connected : Bool
deriving DecidableEq

/-- How the synchronous prefix of a `flushBuffer` call ended. -/
inductive CallRes where
  | retZero : CallRes
  | joined : CallRes
  | suspended : CallRes
  | started (rows : List Row) : CallRes
deriving DecidableEq

/-- The synchronous prefix of `flushBuffer(force)` (`main.js` lines
1024-1043): the guard chain and, when it proceeds, the atomic removal of the
queue contents as the new in-flight write.
  - `retZero`: returned `0` without touching the queue;
  - `joined`: returned the in-flight operation's promise (its eventual
    result), without re-reading the queue;
  - `suspended`: forced call now awaiting the in-flight operation;
  - `started rows`: spliced `rows` out of the queue and began writing them. -/
def flushCallSync (s : FlushSys) (force : Bool) : CallRes × FlushSys :=
  if !s.hasClient then (.retZero, s)
  else if s.buffer.isEmpty && !force then (.retZero, s)
  else if !s.inFlight.isEmpty && !force then (.joined, s)
  else if !s.inFlight.isEmpty && force then (.suspended, { s with waiters := s.waiters + 1 })
  else if s.buffer.isEmpty then (.retZero, s)
  else (.started s.buffer, { s with buffer := [], inFlight := s.inFlight ++ [s.buffer] })

/-- The result a flush operation's promise settles with: the number of rows
written, or the insert error. -/
def flushOpResult (rows : List Row) (ok : Bool) : Except Unit ℕ :=
  if ok then .ok rows.length else .error ()

/-- The effect of the in-flight operation over `rows` settling (`main.js`
lines 1051-1073): on success the store is marked connected; on failure the
removed rows are prepended back onto the live queue in their original order
and the store is marked unhealthy.  (`finally` clears `_flushPromise`; the
completed operation is already removed from `inFlight` by the transition.) -/
def applyOutcome (s : FlushSys) (rows : List Row) (ok : Bool) : FlushSys :=
  if ok then { s with connected := true }
  else { s with connected := false, buffer := rows ++ s.buffer }

/-- Resumption of the forced callers awaiting the settled operation
(`main.js` lines 1034-1043): each re-checks the queue; the first to find it
non-empty splices it and starts a new write, the rest return `0`. -/
def resumeWaiters (s : FlushSys) : FlushSys :=
  if s.waiters = 0 then s
  else if s.buffer.isEmpty then { s with waiters := 0 }
  else { s with buffer := [], inFlight := s.inFlight ++ [s.buffer], waiters := 0 }

/-- Completion of an in-flight operation: apply its outcome, then resume its
awaiters. -/
def completeFlight (s : FlushSys) (rows : List Row) (ok : Bool) : FlushSys :=
  resumeWaiters (applyOutcome s rows ok)

/-- Labels of the coordinator transitions. -/
inductive FlushAct where
  | enq (r : Row) : FlushAct
  | call (force : Bool) (res : CallRes) : FlushAct
  | settle (ok : Bool) : FlushAct

/-- The transition relation: a row is enqueued (`queueRow`), a `flushBuffer`
call runs its synchronous prefix, or an in-flight write settles. -/
inductive FlushStep : FlushSys → FlushAct → FlushSys → Prop
  | enq (s : FlushSys) (r : Row) :
      FlushStep s (.enq r) { s with buffer := s.buffer ++ [r] }
  | call (s : FlushSys) (force : Bool) :
      FlushStep s (.call force (flushCallSync s force).1) (flushCallSync s force).2
  | settle (s : FlushSys) (rows : List Row) (rest : List (List Row)) (ok : Bool)
      (h : s.inFlight = rows :: rest) :
      FlushStep s (.settle ok) (completeFlight { s with inFlight := rest } rows ok)

/-- The initial coordinator state (adapter constructor). -/
def initFlushSys : FlushSys :=
  { hasClient := true, buffer := [], inFlight := [], waiters := 0, connected := false }

/-- Reachability of a coordinator state from the initial state. -/
def FlushReachable (s : FlushSys) : Prop :=
  Relation.ReflTransGen (fun a b => ∃ act, FlushStep a act b) initFlushSys s

/-- A run of the coordinator along a list of labelled steps. -/
inductive FlushRun : FlushSys → List FlushAct → FlushSys → Prop
  | nil (s : FlushSys) : FlushRun s [] s
  | cons {s t u : FlushSys} {act : FlushAct} {acts : List FlushAct}
      (h : FlushStep s act t) (rest : FlushRun t acts u) : FlushRun s (act :: acts) u

/-- The rows enqueued along a list of actions, in order. -/
def enqueuedRows (acts : List FlushAct) : List Row :=
  acts.foldr (fun a acc => match a with | .enq r => r :: acc | _ => acc) []

/-- Does a list of actions contain a settle step? -/
def hasSettle (acts : List FlushAct) : Bool :=
  acts.any (fun a => match a with | .settle _ => true | _ => false)

/-! ## Auxiliary well-formedness and statement vocabulary -/

/-- Does a comparable key carry the payload shape of its type tag?
(`prepareValue` only ever produces well-typed converted values.) -/
def cmpWellTyped : ValueType → Cmp → Bool
  | .number, .num _ => true
  | .string, .str _ => true
  | .boolean, .bool _ => true
  | .json, .str _ => true
  | .null, .cnull => true
  | _, _ => false

/-- A structured JSON value (JavaScript `typeof v === "object"`): an array
or an object.  `JSVal.obj` only holds structured values in reachable states. -/
def Json.structured : Json → Bool
  | .arr _ => true
  | .obj _ => true
  | _ => false

/-- The canonical string of a decoded value under the json type's structural
equality (the spec's "canonical serialization for structured values, typed
literal for primitives"). -/
def jsonCanon : JSVal → String
  | .undef => "undefined"
  | .null => "null"
  | .nan => "NaN"
  | .num q => numToString q
  | .str s => s
  | .bool b => cond b "true" "false"
  | .obj j => j.stringify

/-- The input does not start with a decimal digit (so a decimal token ending
right before it cannot absorb it). -/
def goodTail (l : List Char) : Prop :=
  ∀ c, l.head? = some c → isDigit10 c = false

/-- The single-flight invariant of the coordinator: at most one write
sequence in flight, and waiters only pend on an in-flight operation. -/
def FlushInv (s : FlushSys) : Prop :=
  s.inFlight.length ≤ 1 ∧ (s.inFlight = [] → s.waiters = 0)

/-! # Theorems

Helper lemmas first, then one theorem per specification claim (with its
witness or counterexample where required). -/

/-! ## Decimal digit lemmas -/

theorem charDigit_digitChar {d : ℕ} (h : d < 10) : charDigit (digitChar d) = d := by
  interval_cases d <;> decide

theorem isDigit10_digitChar {d : ℕ} (h : d < 10) : isDigit10 (digitChar d) = true := by
  interval_cases d <;> decide

theorem natCharsAux_digits {fuel n : ℕ} {c : Char} (h : c ∈ natCharsAux fuel n) :
    isDigit10 c = true := by
  induction fuel generalizing n with
  | zero => simp [natCharsAux] at h
  | succ fuel ih =>
    rw [natCharsAux] at h
    by_cases h0 : n = 0
    · simp [h0] at h
    · simp [h0, List.mem_append] at h
      rcases h with h | h
      · exact ih h
      · exact h ▸ isDigit10_digitChar (Nat.mod_lt _ (by norm_num))

theorem natChars_digits {n : ℕ} {c : Char} (h : c ∈ natChars n) : isDigit10 c = true := by
  rw [natChars] at h
  by_cases h0 : n = 0
  · simp [h0] at h
    simp [h]
    decide
  · simp [h0] at h
    exact natCharsAux_digits h

theorem digitsVal_append (l : List Char) (c : Char) :
    digitsVal (l ++ [c]) = 10 * digitsVal l + charDigit c := by
  simp [digitsVal, List.foldl_append]

theorem natCharsAux_val {fuel n : ℕ} (h : n ≤ fuel) : digitsVal (natCharsAux fuel n) = n := by
  induction fuel generalizing n with
  | zero =>
    interval_cases n
    simp [natCharsAux, digitsVal]
  | succ fuel ih =>
    rw [natCharsAux]
    by_cases h0 : n = 0
    · simp [h0, digitsVal]
    · have hdiv : n / 10 ≤ fuel := by
        have := Nat.div_lt_self (Nat.pos_of_ne_zero h0) (by norm_num : 1 < 10)
        omega
      simp only [h0, if_false]
      rw [digitsVal_append, ih hdiv, charDigit_digitChar (Nat.mod_lt _ (by norm_num))]
      omega

theorem natChars_val (n : ℕ) : digitsVal (natChars n) = n := by
  rw [natChars]
  by_cases h0 : n = 0
  · simp [h0, digitsVal, charDigit]
  · simp [h0, natCharsAux_val (le_refl n)]

theorem natCharsAux_ne_nil {fuel n : ℕ} (hn : n ≠ 0) (hf : fuel ≠ 0) :
    natCharsAux fuel n ≠ [] := by
  cases fuel with
  | zero => exact absurd rfl hf
  | succ fuel => simp [natCharsAux, hn]

theorem natChars_ne_nil (n : ℕ) : natChars n ≠ [] := by
  rw [natChars]
  by_cases h0 : n = 0
  · simp [h0]
  · simp only [h0, if_false]
    exact natCharsAux_ne_nil h0 h0

theorem natCharsAux_len {fuel n k : ℕ} (h : n < 10 ^ k) :
    (natCharsAux fuel n).length ≤ k := by
  induction fuel generalizing n k with
  | zero => simp [natCharsAux]
  | succ fuel ih =>
    rw [natCharsAux]
    by_cases h0 : n = 0
    · simp [h0]
    · have hk : k ≠ 0 := by
        rintro rfl
        simp at h
        omega
      obtain ⟨k', rfl⟩ : ∃ k', k = k' + 1 := ⟨k - 1, by omega⟩
      have hdiv : n / 10 < 10 ^ k' := by
        rw [Nat.div_lt_iff_lt_mul (by norm_num : (0:ℕ) < 10)]
        calc n < 10 ^ (k' + 1) := h
        _ = 10 ^ k' * 10 := by ring
      simp only [h0, if_false, List.length_append, List.length_singleton]
      have := ih hdiv
      omega

theorem natChars_len {n k : ℕ} (hk : 1 ≤ k) (h : n < 10 ^ k) :
    (natChars n).length ≤ k := by
  rw [natChars]
  by_cases h0 : n = 0
  · simpa [h0] using hk
  · simp only [h0, if_false]
    exact natCharsAux_len h

/-! ## takeWhile / dropWhile over a satisfied prefix -/

theorem takeWhile_append_all {p : Char → Bool} {l1 l2 : List Char}
    (h1 : ∀ c ∈ l1, p c = true) (h2 : ∀ c, l2.head? = some c → p c = false) :
    (l1 ++ l2).takeWhile p = l1 ∧ (l1 ++ l2).dropWhile p = l2 := by
  induction l1 with
  | nil =>
    simp only [List.nil_append]
    cases l2 with
    | nil => simp
    | cons c t => simp [List.takeWhile_cons, List.dropWhile_cons, h2 c rfl]
  | cons c t ih =>
    have hc : p c = true := h1 c (by simp)
    have iht := ih (fun d hd => h1 d (by simp [hd]))
    simp [List.takeWhile_cons, List.dropWhile_cons, hc, iht.1, iht.2]

theorem skipWs_cons {c : Char} {l : List Char} (h : jsonWs c = false) :
    skipWs (c :: l) = c :: l := by
  simp [skipWs, List.dropWhile_cons, h]

/-! ## On-change reduction lemmas -/

theorem firstOfEachRun_cons (t : List HistEntry) :
    ∀ a, firstOfEachRun (a :: t) =
      a :: reduceOnChangeAux (some (makeComparableKey a.val)) t := by
  induction t with
  | nil => intro a; simp [firstOfEachRun, reduceOnChangeAux]
  | cons b t ih =>
    intro a
    rw [firstOfEachRun]
    by_cases h : makeComparableKey b.val = makeComparableKey a.val
    · rw [if_pos h, ih a, reduceOnChangeAux]
      simp [h]
    · rw [if_neg h, ih b, reduceOnChangeAux]
      simp [Ne.symm h]

theorem reduceOnChangeAux_sublist (l : List HistEntry) :
    ∀ last, (reduceOnChangeAux last l).Sublist l := by
  induction l with
  | nil => intro last; simp [reduceOnChangeAux]
  | cons e t ih =>
    intro last
    rw [reduceOnChangeAux]
    by_cases h : last = some (makeComparableKey e.val)
    · simpa [h] using (ih last).trans (List.sublist_cons_self e t)
    · simpa [h] using (ih (some (makeComparableKey e.val))).cons₂ e

/-- C8.  On-change reduction: `reduceOnChange` returns exactly the first
entry of each maximal run of consecutive entries with equal canonical
comparable keys (`firstOfEachRun`), preserving the delivered order without
re-sorting (the output is a sublist of the input); in particular the value
sequence `[1, 1, 2, 2, 2, 1]` reduces to `[1, 2, 1]`. -/
theorem c8_reduceOnChange_firstOfEachRun :
    (∀ l : List HistEntry, reduceOnChange l = firstOfEachRun l) ∧
    (∀ l : List HistEntry, (reduceOnChange l).Sublist l) ∧
    reduceOnChange
        [⟨.num 1, 0⟩, ⟨.num 1, 1⟩, ⟨.num 2, 2⟩, ⟨.num 2, 3⟩, ⟨.num 2, 4⟩, ⟨.num 1, 5⟩] =
      [⟨.num 1, 0⟩, ⟨.num 2, 2⟩, ⟨.num 1, 5⟩] := by
  refine ⟨fun l => ?_, fun l => reduceOnChangeAux_sublist l none, by rfl⟩
  cases l with
  | nil => simp [reduceOnChange, reduceOnChangeAux, firstOfEachRun]
  | cons a t =>
    rw [firstOfEachRun_cons t a, reduceOnChange, reduceOnChangeAux]
    simp

/-! ## C10: undefined values are rejected before any effect -/

/-- C10.  A `pushHistory` call whose sample value is `undefined` (as opposed
to `null`) returns before policy evaluation: no row is enqueued, no relog
timer is armed, and the tracked entry is returned completely unchanged. -/
theorem c10_pushHistory_undefined (e : Entry) (buffer : List Row) (id : String)
    (tinfo : TableInfo) (st : InState) (timerRelog : Bool) (now : ℚ)
    (h : st.val = JSVal.undef) :
    pushHistoryModel e buffer id tinfo st timerRelog now =
      (PushOutcome.undefinedValue, e, buffer) := by
  simp [pushHistoryModel, cloneState, h]

/-- Witness for C10 at a concrete input. -/
theorem c10_witness :
    pushHistoryModel
        ⟨"id0", ⟨.auto, 0, true, false, none, none, none, 0, 0, false, false⟩,
          none, none, none, 0, none, false, false⟩
        [] "id0" ⟨"history_id0", .number⟩
        ⟨JSVal.undef, some 1000, none, none, none, none⟩ false 2000 =
      (PushOutcome.undefinedValue,
        ⟨"id0", ⟨.auto, 0, true, false, none, none, none, 0, 0, false, false⟩,
          none, none, none, 0, none, false, false⟩, []) :=
  c10_pushHistory_undefined _ _ _ _ _ _ _ rfl

/-! ## C4: the change detector -/

/-- C4.  For every tracked point whose last stored value is numeric and
every incoming numeric converted sample, the sample counts as unchanged
exactly when `|incoming − lastStored| < 1e-12` (regardless of sign or
magnitude), or — when a dead-band `changesMinDelta > 0` is configured —
when `|incoming − lastStored| < changesMinDelta`; and for every non-numeric
type the comparison is exact comparable-key equality. -/
theorem c4_change_detector :
    (∀ (s : Settings) (e : Entry) (c : Converted) (a b : ℚ) (last : StoredState),
      e.lastStoredState = some last → last.type = .number →
      e.lastStoredComparable = some (.num a) → c.type = .number → c.comparable = .num b →
      (valueChangedCalc s e c = false ↔
        (|a - b| < NUMERIC_EPSILON ∨
          (s.changesMinDelta > 0 ∧ |a - b| < s.changesMinDelta)))) ∧
    (∀ (s : Settings) (e : Entry) (c : Converted) (t : ValueType) (last : StoredState)
      (lc : Cmp),
      t ≠ .number → e.lastStoredState = some last → last.type = t →
      e.lastStoredComparable = some lc → c.type = t →
      cmpWellTyped t lc = true → cmpWellTyped t c.comparable = true →
      (valueChangedCalc s e c = false ↔ lc = c.comparable)) := by
  constructor
  · intro s e c a b last hls hlt hlc hct hcc
    simp only [valueChangedCalc, valuesEqual, hls, hlt, hlc, hct, hcc, cmpToNum, absDiffLt,
      ne_eq, not_true_eq_false, if_false, Option.isSome_some, Bool.and_true]
    by_cases hε : |a - b| < NUMERIC_EPSILON
    · simp [hε]
    · by_cases hδ : s.changesMinDelta > 0
      · by_cases hd : |b - a| < s.changesMinDelta
        · simp [hε, hδ, hd, abs_sub_comm]
        · simp [hε, hδ, hd, abs_sub_comm]
      · simp [hε, hδ]
  · intro s e c t last lc hnum hls hlt hlc hct hwt1 hwt2
    have hctn : (decide (c.type = ValueType.number)) = false := by
      simp [hct]
      exact hnum
    simp only [valueChangedCalc, valuesEqual, hls, hlt, hlc, hct, hctn, ne_eq,
      not_true_eq_false, if_false, Bool.and_false, Bool.false_and, Bool.if_false_left,
      Bool.false_eq_true, if_false]
    cases t with
    | number => exact absurd rfl hnum
    | string => simp [hlc]
    | boolean => simp [hlc]
    | json => simp [hlc]
    | null =>
      have h1 : lc = .cnull := by cases lc <;> simp_all [cmpWellTyped]
      have h2 : c.comparable = .cnull := by
        cases hc : c.comparable <;> simp_all [cmpWellTyped]
      simp [hlc, hct, h1, h2]

/-- Witness for C4: with `changesMinDelta = 0.5` and last stored `10.0`, an
incoming `10.3` is unchanged and an incoming `10.6` is changed. -/
theorem c4_witness :
    valueChangedCalc ⟨.auto, 0, true, false, none, none, none, 0, 1/2, false, false⟩
        ⟨"dp", ⟨.auto, 0, true, false, none, none, none, 0, 1/2, false, false⟩, none,
          some ⟨.num 10, 0, 0, .number, false, 0, ""⟩, some (.num 10), 0, none, false, false⟩
        ⟨.number, .num (103/10), .num (103/10)⟩ = false ∧
    valueChangedCalc ⟨.auto, 0, true, false, none, none, none, 0, 1/2, false, false⟩
        ⟨"dp", ⟨.auto, 0, true, false, none, none, none, 0, 1/2, false, false⟩, none,
          some ⟨.num 10, 0, 0, .number, false, 0, ""⟩, some (.num 10), 0, none, false, false⟩
        ⟨.number, .num (53/5), .num (53/5)⟩ = true := by
  have habs1 : |(10 : ℚ) - 103/10| = 3/10 := by
    rw [show (10 : ℚ) - 103/10 = -(3/10) by norm_num, abs_neg, abs_of_nonneg (by norm_num)]
  have habs2 : |(10 : ℚ) - 53/5| = 3/5 := by
    rw [show (10 : ℚ) - 53/5 = -(3/5) by norm_num, abs_neg, abs_of_nonneg (by norm_num)]
  constructor
  · exact (c4_change_detector.1 _ _ _ 10 (103/10) _ rfl rfl rfl rfl rfl).mpr
      (Or.inr ⟨by norm_num, by rw [habs1]; norm_num⟩)
  · cases h : valueChangedCalc _ _ _ with
    | true => rfl
    | false =>
      exfalso
      rcases (c4_change_detector.1 _ _ _ 10 (53/5) _ rfl rfl rfl rfl rfl).mp h with h1 | h1
      · rw [habs2] at h1
        norm_num [NUMERIC_EPSILON] at h1
      · rw [habs2] at h1
        exact absurd h1.2 (by norm_num)

/-! ## C6: the re-log interval override -/

/-- C6 (amended).  For every tracked point with change-only suppression
enabled, a re-log interval `r > 0` and a prior stored sample, an unchanged
non-relog sample arriving at least `r` seconds after the last stored
timestamp — provided none of the earlier filters (minimum spacing, zero/null
suppression, range clamp) skips it first — is not skipped, and the decision
leaves the entry untouched (in particular the comparison state and
`lastSkippedState` are not modified by the policy engine). -/
theorem c6_relog_override (e : Entry) (c : Converted) (st : SampleState)
    (hco : e.config.changesOnly = true)
    (hri : e.config.changesRelogInterval > 0)
    (hst : e.lastStoredState.isSome = true)
    (hunch : valueChangedCalc e.config e c = false)
    (hts : st.ts - e.lastLogTime ≥ e.config.changesRelogInterval * 1000)
    (hbt : blockTimeActive e.config e st = false)
    (hiz : e.config.ignoreZero = false ∨ (zeroValueHit c = false ∧ c.type ≠ ValueType.null))
    (hbl : belowHit e.config c = false)
    (hab : aboveHit e.config c = false) :
    shouldSkipValue e c st false = (none, e) := by
  have hrd : relogDue e.config e st = true := by
    rw [relogDue]
    simp only [if_pos hri]
    have h1 : e.config.changesRelogInterval * 1000 > 0 := mul_pos hri (by norm_num)
    simp [h1, hts]
  rw [shouldSkipValue]
  rcases hiz with hiz | ⟨hz1, hz2⟩
  · simp [hbt, hiz, hbl, hab, hco, hst, hunch, hrd]
  · simp [hbt, hz1, hz2, hbl, hab, hco, hst, hunch, hrd]

/-- Counterexample to C6 as stated: a tracked point satisfying every
condition of the claim (change-only on, re-log interval `60 s` elapsed,
prior stored sample, value unchanged, non-relog trigger) whose sample is
nevertheless skipped, because the minimum-spacing filter
(`blockTime = 120000 ms`) fires before the change-only filter is reached. -/
theorem c6_counterexample :
    (shouldSkipValue
        ⟨"cx", ⟨.auto, 120000, true, false, none, none, none, 60, 0, false, false⟩, none,
          some ⟨.num 10, 0, 0, .number, false, 0, ""⟩, some (.num 10), 0, none, false, false⟩
        ⟨.number, .num 10, .num 10⟩ ⟨.num 10, 61000, 61000, false, 0, ""⟩ false).1 =
      some SkipReason.blockTime ∧
    (⟨.auto, 120000, true, false, none, none, none, 60, 0, false, false⟩ : Settings).changesOnly
        = true ∧
    (⟨.auto, 120000, true, false, none, none, none, 60, 0, false, false⟩ : Settings).changesRelogInterval
        > 0 ∧
    (some ⟨.num 10, 0, 0, .number, false, 0, ""⟩ : Option StoredState).isSome = true ∧
    valueChangedCalc ⟨.auto, 120000, true, false, none, none, none, 60, 0, false, false⟩
        ⟨"cx", ⟨.auto, 120000, true, false, none, none, none, 60, 0, false, false⟩, none,
          some ⟨.num 10, 0, 0, .number, false, 0, ""⟩, some (.num 10), 0, none, false, false⟩
        ⟨.number, .num 10, .num 10⟩ = false ∧
    (61000 : ℚ) - 0 ≥ 60 * 1000 := by
  have hveq : valuesEqual ⟨.number, .num 10, .num 10⟩
      ⟨"cx", ⟨.auto, 120000, true, false, none, none, none, 60, 0, false, false⟩, none,
        some ⟨.num 10, 0, 0, .number, false, 0, ""⟩, some (.num 10), 0, none, false, false⟩
        = true := by
    norm_num [valuesEqual, cmpToNum, NUMERIC_EPSILON]
  refine ⟨?_, rfl, by norm_num, rfl, by simp [valueChangedCalc, hveq], by norm_num⟩
  have hbt : blockTimeActive ⟨.auto, 120000, true, false, none, none, none, 60, 0, false, false⟩
      ⟨"cx", ⟨.auto, 120000, true, false, none, none, none, 60, 0, false, false⟩, none,
        some ⟨.num 10, 0, 0, .number, false, 0, ""⟩, some (.num 10), 0, none, false, false⟩
      ⟨.num 10, 61000, 61000, false, 0, ""⟩ = true := by
    norm_num [blockTimeActive]
  rw [shouldSkipValue]
  simp [hbt]

/-- Witness for C6 at a concrete input (same scenario with no spacing
filter configured). -/
theorem c6_witness :
    shouldSkipValue
        ⟨"w6", ⟨.auto, 0, true, false, none, none, none, 60, 0, false, false⟩, none,
          some ⟨.num 10, 0, 0, .number, false, 0, ""⟩, some (.num 10), 0, none, false, false⟩
        ⟨.number, .num 10, .num 10⟩ ⟨.num 10, 61000, 61000, false, 0, ""⟩ false =
      (none,
        ⟨"w6", ⟨.auto, 0, true, false, none, none, none, 60, 0, false, false⟩, none,
          some ⟨.num 10, 0, 0, .number, false, 0, ""⟩, some (.num 10), 0, none, false, false⟩) :=
  c6_relog_override _ _ _ rfl (by norm_num) rfl
    (by
      have hveq : valuesEqual ⟨.number, .num 10, .num 10⟩
          ⟨"w6", ⟨.auto, 0, true, false, none, none, none, 60, 0, false, false⟩, none,
            some ⟨.num 10, 0, 0, .number, false, 0, ""⟩, some (.num 10), 0, none, false, false⟩
          = true := by
        norm_num [valuesEqual, cmpToNum, NUMERIC_EPSILON]
      simp [valueChangedCalc, hveq])
    (by norm_num) (by simp [blockTimeActive]) (Or.inl rfl) (by simp [belowHit])
    (by simp [aboveHit])

/-! ## C7: the unconditional range clamp -/

/-- C7.  For every numeric converted sample below a configured lower bound
or above a configured upper bound, the policy engine skips the sample — for
every trigger, including a relog trigger (`timerRelog = true`), where the
skip reason is precisely the range clamp (the spacing and zero/null filters
being bypassed on relog). -/
theorem c7_range_clamp (e : Entry) (c : Converted) (st : SampleState) (q : ℚ)
    (hct : c.type = .number) (hcc : c.comparable = .num q)
    (hreason : (∃ b, e.config.ignoreBelowNumber = some b ∧ q < b) ∨
               (∃ a, e.config.ignoreAboveNumber = some a ∧ q > a)) :
    (∀ timerRelog, ((shouldSkipValue e c st timerRelog).1).isSome = true) ∧
    (∃ r, (r = SkipReason.belowRange ∨ r = SkipReason.aboveRange) ∧
      shouldSkipValue e c st true = (some r, e)) := by
  have hba : belowHit e.config c = true ∨ aboveHit e.config c = true := by
    rcases hreason with ⟨b, hb, hlt⟩ | ⟨a, ha, hgt⟩
    · left
      simp [belowHit, hb, hct, hcc, cmpToNum, hlt]
    · right
      simp [aboveHit, ha, hct, hcc, cmpToNum, hgt]
  constructor
  · intro tr
    rw [shouldSkipValue]
    split_ifs <;> simp_all
  · by_cases hbl : belowHit e.config c = true
    · exact ⟨.belowRange, Or.inl rfl, by simp [shouldSkipValue, hbl]⟩
    · have hab : aboveHit e.config c = true := by
        rcases hba with h | h
        · exact absurd h hbl
        · exact h
      exact ⟨.aboveRange, Or.inr rfl, by
        simp only [Bool.not_eq_true] at hbl
        simp [shouldSkipValue, hbl, hab]⟩

/-- Witness for C7 at a concrete input: lower bound `5`, incoming `3`,
relog trigger. -/
theorem c7_witness :
    (∀ timerRelog,
      ((shouldSkipValue
          ⟨"w7", ⟨.auto, 0, true, false, some 5, none, none, 0, 0, false, false⟩, none,
            some ⟨.num 10, 0, 0, .number, false, 0, ""⟩, some (.num 10), 0, none, false, false⟩
          ⟨.number, .num 3, .num 3⟩ ⟨.num 3, 1000, 1000, false, 0, ""⟩ timerRelog).1).isSome
        = true) ∧
    (∃ r, (r = SkipReason.belowRange ∨ r = SkipReason.aboveRange) ∧
      shouldSkipValue
          ⟨"w7", ⟨.auto, 0, true, false, some 5, none, none, 0, 0, false, false⟩, none,
            some ⟨.num 10, 0, 0, .number, false, 0, ""⟩, some (.num 10), 0, none, false, false⟩
          ⟨.number, .num 3, .num 3⟩ ⟨.num 3, 1000, 1000, false, 0, ""⟩ true =
        (some r,
          ⟨"w7", ⟨.auto, 0, true, false, some 5, none, none, 0, 0, false, false⟩, none,
            some ⟨.num 10, 0, 0, .number, false, 0, ""⟩, some (.num 10), 0, none, false,
            false⟩)) :=
  c7_range_clamp _ _ _ 3 rfl rfl (Or.inl ⟨5, rfl, by norm_num⟩)

/-! ## C5: exactly one row per accepted sample -/

theorem shouldSkipValue_unchanged_sets (e : Entry) (c : Converted) (st : SampleState)
    (tr : Bool) (e2 : Entry)
    (h : shouldSkipValue e c st tr = (some .unchanged, e2))
    (hd : e.config.disableSkippedValueLogging = false) :
    e2.lastSkippedState = some st := by
  rw [shouldSkipValue] at h
  split at h
  · simp at h
  · split at h
    · simp at h
    · split at h
      · simp at h
      · split at h
        · simp at h
        · split at h
          · simp at h
          · split at h
            · simp at h
            · split at h
              · simp only [] at h
                split at h
                · injection h with h1 h2
                  subst h2
                  rfl
                · simp at h
              · next hcond =>
                  rw [hd] at hcond
                  simp at hcond

/-- C5.  Row-count postcondition of `pushHistory`: an accepted sample
appends exactly one row to the write buffer; a skipped sample appends no
row, and when the change-only filter caused the skip and
`disableSkippedValueLogging` is off, the point's last-skipped record is set
to that (cloned) sample; every non-accepted outcome leaves the buffer
unchanged. -/
theorem c5_row_count (e : Entry) (buffer : List Row) (id : String) (tinfo : TableInfo)
    (st : InState) (timerRelog : Bool) (now : ℚ) (out : PushOutcome) (e' : Entry)
    (buf' : List Row)
    (h : pushHistoryModel e buffer id tinfo st timerRelog now = (out, e', buf')) :
    (out = .stored → ∃ row, buf' = buffer ++ [row]) ∧
    (∀ r, out = .skipped r → buf' = buffer ∧
      (r = .unchanged → e.config.disableSkippedValueLogging = false →
        e'.lastSkippedState = some (cloneState st now))) ∧
    (out ≠ .stored → buf' = buffer) := by
  simp only [pushHistoryModel] at h
  split at h
  · simp only [Prod.mk.injEq] at h
    obtain ⟨rfl, rfl, rfl⟩ := h
    simp
  · split at h
    · simp only [Prod.mk.injEq] at h
      obtain ⟨rfl, rfl, rfl⟩ := h
      simp
    · split at h
      · simp only [Prod.mk.injEq] at h
        obtain ⟨rfl, rfl, rfl⟩ := h
        simp
      · split at h
        · simp only [Prod.mk.injEq] at h
          obtain ⟨rfl, rfl, rfl⟩ := h
          simp
        · split at h
          · rename_i x r e2 hss
            simp only [Prod.mk.injEq] at h
            obtain ⟨rfl, rfl, rfl⟩ := h
            refine ⟨by simp, ?_, fun _ => rfl⟩
            intro r' hr'
            obtain rfl : r = r' := by injection hr'
            refine ⟨rfl, ?_⟩
            rintro rfl hd
            exact shouldSkipValue_unchanged_sets _ _ _ _ _ hss hd
          · rename_i x e2 hss
            simp only [Prod.mk.injEq] at h
            obtain ⟨rfl, rfl, rfl⟩ := h
            exact ⟨fun _ => ⟨_, rfl⟩, by simp, by simp⟩

/-- Witness for C5 at a concrete accepted sample (auto-detected number,
default-like policy): exactly one row is appended. -/
theorem c5_witness :
    ∃ row,
      (pushHistoryModel
          ⟨"w5", ⟨.auto, 0, true, false, none, none, none, 0, 0, false, false⟩, none, none,
            none, 0, none, false, false⟩
          [] "w5" ⟨"history_w5", .number⟩ ⟨JSVal.num 5, some 1000, none, none, none, none⟩
          false 1000).2.2 = [] ++ [row] := by
  have h := c5_row_count
    ⟨"w5", ⟨.auto, 0, true, false, none, none, none, 0, 0, false, false⟩, none, none,
      none, 0, none, false, false⟩
    [] "w5" ⟨"history_w5", .number⟩ ⟨JSVal.num 5, some 1000, none, none, none, none⟩
    false 1000 _ _ _ rfl
  exact h.1 (by decide)

/-! ## Flush coordinator lemmas -/

theorem flushCallSync_inflight_preserves (s : FlushSys) (force : Bool)
    (h : s.inFlight ≠ []) :
    (flushCallSync s force).2.buffer = s.buffer ∧
    (flushCallSync s force).2.inFlight = s.inFlight ∧
    (flushCallSync s force).2.connected = s.connected := by
  have hne : s.inFlight.isEmpty = false := by
    simp [List.isEmpty_iff, h]
  rw [flushCallSync]
  cases force <;> simp [hne] <;> split_ifs <;> simp

theorem flushRun_no_settle {s s' : FlushSys} {acts : List FlushAct}
    (hrun : FlushRun s acts s') (hns : hasSettle acts = false) (hin : s.inFlight ≠ []) :
    s'.buffer = s.buffer ++ enqueuedRows acts ∧ s'.inFlight = s.inFlight ∧
    s'.connected = s.connected := by
  induction hrun with
  | nil => simp [enqueuedRows]
  | @cons s t u act acts hstep rest ih =>
    have hns' : hasSettle acts = false := by
      simp [hasSettle] at hns ⊢
      intro a ha
      exact hns.2 a ha
    cases hstep with
    | enq r =>
      have ih' := ih hns' (by simpa using hin)
      simp only [enqueuedRows, List.foldr_cons] at ih' ⊢
      refine ⟨?_, by simpa using ih'.2.1, by simpa using ih'.2.2⟩
      rw [ih'.1]
      simp [enqueuedRows]
    | call force =>
      have hpres := flushCallSync_inflight_preserves s force hin
      have ih' := ih hns' (by rw [hpres.2.1]; exact hin)
      simp only [enqueuedRows, List.foldr_cons] at ih' ⊢
      refine ⟨?_, ih'.2.1.trans hpres.2.1, ih'.2.2.trans hpres.2.2⟩
      rw [ih'.1, hpres.1]
    | settle rows rest' ok hin' => simp [hasSettle] at hns

/-- C2.  Flush failure atomicity and requeue order: when the bulk write of
an in-flight flush fails, every row removed for that attempt is prepended
back onto the front of the live queue in its original order — ahead of all
rows enqueued during the failed attempt — the connected flag is set to
`false`, and the operation's result is the error (rethrown to the flush
caller). -/
theorem c2_flush_failure_requeue (rows : List Row) (s0 s1 : FlushSys)
    (acts : List FlushAct) (hin : s0.inFlight = [rows]) (hbuf : s0.buffer = [])
    (hrun : FlushRun s0 acts s1) (hns : hasSettle acts = false) :
    (applyOutcome s1 rows false).buffer = rows ++ enqueuedRows acts ∧
    (applyOutcome s1 rows false).connected = false ∧
    flushOpResult rows false = .error () := by
  have h := flushRun_no_settle hrun hns (by simp [hin])
  refine ⟨?_, by simp [applyOutcome], by simp [flushOpResult]⟩
  simp [applyOutcome, h.1, hbuf]

/-- Witness for C2 at a concrete input: one row in flight fails while one
new row arrives; the failed row is requeued ahead of the new arrival. -/
theorem c2_witness :
    (applyOutcome
        ⟨true, [⟨"b", "t", .number, 1, some (.num 2)⟩],
          [[⟨"a", "t", .number, 0, some (.num 1)⟩]], 0, true⟩
        [⟨"a", "t", .number, 0, some (.num 1)⟩] false).buffer =
      [⟨"a", "t", .number, 0, some (.num 1)⟩, ⟨"b", "t", .number, 1, some (.num 2)⟩] ∧
    (applyOutcome
        ⟨true, [⟨"b", "t", .number, 1, some (.num 2)⟩],
          [[⟨"a", "t", .number, 0, some (.num 1)⟩]], 0, true⟩
        [⟨"a", "t", .number, 0, some (.num 1)⟩] false).connected = false ∧
    flushOpResult [⟨"a", "t", .number, 0, some (.num 1)⟩] false = .error () := by
  have h := c2_flush_failure_requeue [⟨"a", "t", .number, 0, some (.num 1)⟩]
    ⟨true, [], [[⟨"a", "t", .number, 0, some (.num 1)⟩]], 0, true⟩
    ⟨true, [⟨"b", "t", .number, 1, some (.num 2)⟩],
      [[⟨"a", "t", .number, 0, some (.num 1)⟩]], 0, true⟩
    [.enq ⟨"b", "t", .number, 1, some (.num 2)⟩] rfl rfl
    (FlushRun.cons (FlushStep.enq _ _) (FlushRun.nil _)) rfl
  exact ⟨by simpa [enqueuedRows] using h.1, h.2.1, h.2.2⟩

/-! ## C1: the single-flight contract -/

theorem flushInv_init : FlushInv initFlushSys := by
  simp [FlushInv, initFlushSys]

theorem flushInv_step {s s' : FlushSys} {act : FlushAct} (hinv : FlushInv s)
    (hstep : FlushStep s act s') : FlushInv s' := by
  cases hstep with
  | enq r => exact hinv
  | call force =>
    rw [flushCallSync]
    split_ifs with h1 h2 h3 h4 h5
    · exact hinv
    · exact hinv
    · exact hinv
    · refine ⟨hinv.1, fun hnil => ?_⟩
      simp only [Bool.and_eq_true] at h4
      simp only at hnil
      rw [hnil] at h4
      simp at h4
    · exact hinv
    · have hfl : s.inFlight = [] := by
        by_cases hforce : force = true
        · subst hforce
          simp at h4
          exact h4
        · simp only [Bool.not_eq_true] at hforce
          subst hforce
          simp at h3
          exact h3
      refine ⟨by simp [hfl], fun hnil => ?_⟩
      simp only [hfl] at hnil
      simp at hnil
  | settle rows rest ok hin =>
    have hrest : rest = [] := by
      have h1 := hinv.1
      rw [hin] at h1
      simp only [List.length_cons] at h1
      exact List.eq_nil_of_length_eq_zero (by omega)
    subst hrest
    rw [completeFlight, resumeWaiters, applyOutcome]
    split_ifs <;> simp_all [FlushInv]

theorem flushInv_reachable {s : FlushSys} (h : FlushReachable s) : FlushInv s := by
  induction h with
  | refl => exact flushInv_init
  | tail hsteps hstep ih =>
    obtain ⟨act, hact⟩ := hstep
    exact flushInv_step ih hact

/-- C1 (amended).  Single-flight flush contract:
  (a) in every reachable coordinator state at most one flush operation is
      in flight;
  (b) a call with `force = false` made while a flush is in flight, the
      client set, and the queue non-empty returns the in-flight operation's
      result without removing any rows from the queue (an empty-queue
      non-forced call instead returns `0` immediately);
  (c) a call with `force = true` made while a flush is in flight first
      awaits the in-flight operation — whatever its outcome — and
  (d) when that operation settles, the resumed forced caller flushes
      exactly the rows present in the queue at that moment (including rows
      requeued by a failure and rows that arrived meanwhile), or returns
      `0` if the queue is empty. -/
theorem c1_single_flight :
    (∀ s : FlushSys, FlushReachable s → s.inFlight.length ≤ 1) ∧
    (∀ s : FlushSys, s.hasClient = true → s.inFlight ≠ [] → s.buffer ≠ [] →
      flushCallSync s false = (.joined, s)) ∧
    (∀ s : FlushSys, s.hasClient = true → s.inFlight ≠ [] →
      flushCallSync s true = (.suspended, { s with waiters := s.waiters + 1 })) ∧
    (∀ (s : FlushSys) (rows : List Row) (ok : Bool), s.waiters ≠ 0 →
      (completeFlight s rows ok).waiters = 0 ∧
      ((applyOutcome s rows ok).buffer ≠ [] →
        (completeFlight s rows ok).buffer = [] ∧
        (completeFlight s rows ok).inFlight =
          (applyOutcome s rows ok).inFlight ++ [(applyOutcome s rows ok).buffer]) ∧
      ((applyOutcome s rows ok).buffer = [] →
        completeFlight s rows ok = { applyOutcome s rows ok with waiters := 0 })) := by
  refine ⟨fun s hs => (flushInv_reachable hs).1, ?_, ?_, ?_⟩
  · intro s hc hin hb
    have hbe : s.buffer.isEmpty = false := by simp [List.isEmpty_iff, hb]
    have hie : s.inFlight.isEmpty = false := by simp [List.isEmpty_iff, hin]
    rw [flushCallSync]
    simp [hc, hbe, hie]
  · intro s hc hin
    have hie : s.inFlight.isEmpty = false := by simp [List.isEmpty_iff, hin]
    rw [flushCallSync]
    by_cases hbe : s.buffer.isEmpty <;> simp [hc, hbe, hie]
  · intro s rows ok hw
    have hwa : (applyOutcome s rows ok).waiters = s.waiters := by
      rw [applyOutcome]
      split_ifs <;> rfl
    have hne : ¬(applyOutcome s rows ok).waiters = 0 := by
      rw [hwa]
      exact hw
    refine ⟨?_, ?_, ?_⟩
    · rw [completeFlight, resumeWaiters, if_neg hne]
      split_ifs <;> rfl
    · intro hb
      rw [completeFlight, resumeWaiters, if_neg hne,
        if_neg (by simp [List.isEmpty_iff, hb])]
      exact ⟨rfl, rfl⟩
    · intro hb
      rw [completeFlight, resumeWaiters, if_neg hne,
        if_pos (by simp [List.isEmpty_iff, hb])]

/-- Counterexample to C1 as stated: with a flush in flight and an **empty**
queue, a non-forced `flushBuffer` call returns `0` immediately (the guard at
`main.js` line 1028 precedes the in-flight check at line 1031) instead of
returning the in-flight operation's result as the claim requires. -/
theorem c1_counterexample :
    flushCallSync ⟨true, [], [[⟨"a", "t", .number, 0, some (.num 1)⟩]], 0, true⟩ false =
      (CallRes.retZero, ⟨true, [], [[⟨"a", "t", .number, 0, some (.num 1)⟩]], 0, true⟩) ∧
    CallRes.retZero ≠ CallRes.joined ∧
    (⟨true, [], [[⟨"a", "t", .number, 0, some (.num 1)⟩]], 0, true⟩ : FlushSys).inFlight ≠ [] := by
  refine ⟨by rfl, by simp, by simp⟩

/-- Witness for C1 at a concrete input: a non-forced call with a flush in
flight and a non-empty queue joins the in-flight operation, leaving the
state unchanged. -/
theorem c1_witness :
    flushCallSync
        ⟨true, [⟨"b", "t", .number, 1, some (.num 2)⟩],
          [[⟨"a", "t", .number, 0, some (.num 1)⟩]], 0, true⟩ false =
      (CallRes.joined,
        ⟨true, [⟨"b", "t", .number, 1, some (.num 2)⟩],
          [[⟨"a", "t", .number, 0, some (.num 1)⟩]], 0, true⟩) :=
  c1_single_flight.2.1 _ rfl (by simp) (by simp)

/-! ## Table-name generation lemmas -/

theorem stripTrailing_pref (l : List Char) : stripTrailingUnderscores l <+: l := by
  have h : (l.reverse.dropWhile (fun c => c = '_')) <:+ l.reverse := List.dropWhile_suffix _
  have h2 := List.reverse_prefix.mpr h
  rwa [List.reverse_reverse] at h2

theorem stripTrailing_length (l : List Char) :
    (stripTrailingUnderscores l).length ≤ l.length :=
  (stripTrailing_pref l).sublist.length_le

theorem replaceBadRunsAux_allowed (l : List Char) :
    ∀ (flag : Bool), ∀ c ∈ replaceBadRunsAux l flag, allowedIdentChar c = true := by
  induction l with
  | nil => simp [replaceBadRunsAux]
  | cons c rest ih =>
    intro flag d hd
    rw [replaceBadRunsAux] at hd
    by_cases hc : allowedIdentChar c = true
    · rw [if_pos hc] at hd
      rcases List.mem_cons.mp hd with rfl | hd
      · exact hc
      · exact ih false d hd
    · rw [if_neg hc] at hd
      by_cases hf : flag = true
      · rw [if_pos hf] at hd
        exact ih true d hd
      · rw [if_neg hf] at hd
        rcases List.mem_cons.mp hd with rfl | hd
        · rfl
        · exact ih true d hd

theorem replaceBadRuns_allowed (l : List Char) :
    ∀ c ∈ replaceBadRuns l, allowedIdentChar c = true :=
  replaceBadRunsAux_allowed l false

theorem collapseUnderscoresAux_mem (l : List Char) :
    ∀ (flag : Bool), ∀ c ∈ collapseUnderscoresAux l flag, c ∈ l ∨ c = '_' := by
  induction l with
  | nil => simp [collapseUnderscoresAux]
  | cons c rest ih =>
    intro flag d hd
    rw [collapseUnderscoresAux] at hd
    by_cases hc : c = '_'
    · rw [if_pos hc] at hd
      by_cases hf : flag = true
      · rw [if_pos hf] at hd
        rcases ih true d hd with hmem | hund
        · exact Or.inl (List.mem_cons_of_mem _ hmem)
        · exact Or.inr hund
      · rw [if_neg hf] at hd
        rcases List.mem_cons.mp hd with rfl | hd
        · exact Or.inr rfl
        · rcases ih true d hd with hmem | hund
          · exact Or.inl (List.mem_cons_of_mem _ hmem)
          · exact Or.inr hund
    · rw [if_neg hc] at hd
      rcases List.mem_cons.mp hd with rfl | hd
      · exact Or.inl (by simp)
      · rcases ih false d hd with hmem | hund
        · exact Or.inl (List.mem_cons_of_mem _ hmem)
        · exact Or.inr hund

theorem collapseUnderscores_allowed (l : List Char)
    (h : ∀ c ∈ l, allowedIdentChar c = true) :
    ∀ c ∈ collapseUnderscores l, allowedIdentChar c = true := fun c hc =>
  (collapseUnderscoresAux_mem l false c hc).elim (h c) (fun he => he ▸ rfl)

theorem sanitize_allowed (id : String) :
    ∀ c ∈ sanitizeDatapointIdentifier id, allowedIdentChar c = true := by
  rw [sanitizeDatapointIdentifier]
  intro c hc
  have hc4 := (List.take_sublist _ _).mem hc
  have hs1 : ∀ d ∈ collapseUnderscores (replaceBadRuns (trimWs id.data)),
      allowedIdentChar d = true :=
    collapseUnderscores_allowed _ (replaceBadRuns_allowed _)
  have hs2 : ∀ d ∈ stripTrailingUnderscores
      (stripLeadingUnderscores (collapseUnderscores (replaceBadRuns (trimWs id.data)))),
      allowedIdentChar d = true := by
    intro d hd
    exact hs1 d ((List.dropWhile_sublist _).mem ((stripTrailing_pref _).sublist.mem hd))
  split at hc4
  · split at hc4
    · simp at hc4
      rcases hc4 with rfl | rfl | rfl | rfl | rfl | rfl | rfl <;> rfl
    · simp at hc4
      rcases hc4 with rfl | rfl | rfl | rfl | rfl <;> rfl
  · split at hc4
    · rcases List.mem_cons.mp hc4 with rfl | hc4
      · rfl
      · rcases List.mem_cons.mp hc4 with rfl | hc4
        · rfl
        · exact hs2 c hc4
    · exact hs2 c hc4

theorem sanitize_ne_nil (id : String) : sanitizeDatapointIdentifier id ≠ [] := by
  rw [sanitizeDatapointIdentifier]
  by_cases h2 : stripTrailingUnderscores
      (stripLeadingUnderscores (collapseUnderscores (replaceBadRuns (trimWs id.data)))) = []
  · rw [if_pos h2]
    split <;> simp
  · rw [if_neg h2]
    by_cases h3 : headIsDigit (stripTrailingUnderscores
        (stripLeadingUnderscores (collapseUnderscores (replaceBadRuns (trimWs id.data))))) = true
    · rw [if_pos h3]
      simp
    · rw [if_neg h3]
      simp [List.take_eq_nil_iff, h2]

theorem headIsDigit_take {l : List Char} {n : ℕ} (hn : n ≠ 0) :
    headIsDigit (l.take n) = headIsDigit l := by
  cases l with
  | nil => simp
  | cons c t =>
    cases n with
    | zero => exact absurd rfl hn
    | succ n => simp [headIsDigit]

theorem sanitize_head (id : String) :
    headIsDigit (sanitizeDatapointIdentifier id) = false := by
  rw [sanitizeDatapointIdentifier]
  rw [headIsDigit_take (by norm_num)]
  by_cases h2 : stripTrailingUnderscores
      (stripLeadingUnderscores (collapseUnderscores (replaceBadRuns (trimWs id.data)))) = []
  · rw [if_pos h2]
    decide
  · rw [if_neg h2]
    by_cases h3 : headIsDigit (stripTrailingUnderscores
        (stripLeadingUnderscores (collapseUnderscores (replaceBadRuns (trimWs id.data))))) = true
    · rw [if_pos h3]
      rfl
    · rw [if_neg h3]
      simpa using h3

theorem sanitize_len (id : String) : (sanitizeDatapointIdentifier id).length ≤ 48 := by
  rw [sanitizeDatapointIdentifier]
  exact List.length_take_le _ _

theorem headIsDigit_of_pref {l1 l2 : List Char} (h : l1 <+: l2) (hne : l1 ≠ []) :
    headIsDigit l2 = headIsDigit l1 := by
  obtain ⟨t, rfl⟩ := h
  cases l1 with
  | nil => exact absurd rfl hne
  | cons c cs => rfl

theorem allowed_of_digit {c : Char} (h : isDigit10 c = true) :
    allowedIdentChar c = true := by
  simp only [isDigit10, Bool.and_eq_true, decide_eq_true_eq] at h
  have hd : c.isDigit = true := by
    simp [Char.isDigit]
    exact ⟨h.1, h.2⟩
  simp [allowedIdentChar, hd]

theorem headIsDigit_append {l1 l2 : List Char} (hne : l1 ≠ []) :
    headIsDigit (l1 ++ l2) = headIsDigit l1 := by
  cases l1 with
  | nil => exact absurd rfl hne
  | cons c cs => rfl

theorem take_ne_nil_of_pos {l : List Char} {n : ℕ} (hn : n ≠ 0) (hl : l ≠ []) :
    l.take n ≠ [] := by
  simp [List.take_eq_nil_iff, hn, hl]

theorem genCandidate_spec (p tail0 : List Char) (counter : ℕ)
    (hp : p ≠ []) (hpa : ∀ c ∈ p, allowedIdentChar c = true) (hpd : headIsDigit p = false)
    (hta : ∀ c ∈ tail0, allowedIdentChar c = true) (hcnt : counter < 10 ^ 51) :
    (∀ c ∈ genCandidate p (p ++ '_' :: tail0) counter, allowedIdentChar c = true) ∧
    headIsDigit (genCandidate p (p ++ '_' :: tail0) counter) = false ∧
    (genCandidate p (p ++ '_' :: tail0) counter).length ≤ 62 := by
  have hdl : (natChars counter).length ≤ 51 := natChars_len (by norm_num) hcnt
  have hslen : ('_' :: natChars counter).length ≤ 52 := by
    simp only [List.length_cons]
    omega
  have hm : max 1 (62 - ('_' :: natChars counter).length) =
      62 - ('_' :: natChars counter).length := max_eq_right (by omega)
  have hmpos : 62 - ('_' :: natChars counter).length ≠ 0 := by omega
  have hbase : ∀ c ∈ (p ++ '_' :: tail0), allowedIdentChar c = true := by
    intro c hc
    rcases List.mem_append.mp hc with hc | hc
    · exact hpa c hc
    · rcases List.mem_cons.mp hc with rfl | hc
      · rfl
      · exact hta c hc
  have hsfx : ∀ c ∈ ('_' :: natChars counter), allowedIdentChar c = true := by
    intro c hc
    rcases List.mem_cons.mp hc with rfl | hc
    · rfl
    · exact allowed_of_digit (natChars_digits hc)
  rw [genCandidate]
  simp only [hm]
  constructor
  · -- character set
    intro c hc
    rcases List.mem_append.mp hc with hc | hc
    · split at hc
      · split at hc
        · exact hpa c ((List.take_sublist _ _).mem hc)
        · exact hbase c
            ((List.take_sublist _ _).mem ((stripTrailing_pref _).sublist.mem hc))
      · split at hc
        · exact hpa c ((List.take_sublist _ _).mem hc)
        · exact hbase c hc
    · exact hsfx c hc
  constructor
  · -- leading character is not a digit
    have htr : ∀ t0 : List Char,
        t0 ≠ [] → headIsDigit t0 = headIsDigit p →
        headIsDigit (t0 ++ '_' :: natChars counter) = false := by
      intro t0 h1 h2
      rw [headIsDigit_append h1, h2, hpd]
    split
    · next hlong =>
      split
      · next h0 =>
        exact htr _ (take_ne_nil_of_pos hmpos hp) (headIsDigit_take hmpos)
      · next h0 =>
        have h1 : headIsDigit ((p ++ '_' :: tail0).take
            (62 - ('_' :: natChars counter).length)) = headIsDigit p := by
          rw [headIsDigit_take hmpos, headIsDigit_append hp]
        exact htr _ h0 ((headIsDigit_of_pref (stripTrailing_pref _) h0).symm.trans h1)
    · next hlong =>
      split
      · next h0 =>
        exact htr _ (take_ne_nil_of_pos hmpos hp) (headIsDigit_take hmpos)
      · next h0 =>
        exact htr _ h0 (headIsDigit_append hp)
  · -- length budget
    have hlen : ∀ t0 : List Char,
        t0.length ≤ 62 - ('_' :: natChars counter).length →
        (t0 ++ '_' :: natChars counter).length ≤ 62 := by
      intro t0 h1
      rw [List.length_append]
      omega
    split
    · next hlong =>
      split
      · exact hlen _ (List.length_take_le _ _)
      · exact hlen _ ((stripTrailing_length _).trans (List.length_take_le _ _))
    · next hlong =>
      split
      · exact hlen _ (List.length_take_le _ _)
      · exact hlen _ (by omega)

theorem genLoop_spec (cache : List (String × TableInfo)) (p tail0 : List Char) (id : String)
    (hp : p ≠ []) (hpa : ∀ c ∈ p, allowedIdentChar c = true) (hpd : headIsDigit p = false)
    (hta : ∀ c ∈ tail0, allowedIdentChar c = true) :
    ∀ (fuel counter : ℕ) (name : List Char), fuel + counter ≤ 10 ^ 50 →
      genLoop cache p (p ++ '_' :: tail0) id fuel counter = some name →
      (∀ c ∈ name, allowedIdentChar c = true) ∧ headIsDigit name = false ∧
        name.length ≤ 62 ∧ isTableNameInUse cache name id = false := by
  intro fuel
  induction fuel with
  | zero =>
    intro counter name _ h
    simp [genLoop] at h
  | succ fuel ih =>
    intro counter name hbound h
    rw [genLoop] at h
    split at h
    · next hfree =>
      injection h with h
      subst h
      have hcnt : counter < 10 ^ 51 := by
        have h50 : counter ≤ 10 ^ 50 := by omega
        have h51 : (10 : ℕ) ^ 50 < 10 ^ 51 := by norm_num
        omega
      have hc := genCandidate_spec p tail0 counter hp hpa hpd hta hcnt
      simp only [Bool.not_eq_true'] at hfree
      exact ⟨hc.1, hc.2.1, hc.2.2, hfree⟩
    · exact ih (counter + 1) name (by omega) h

/-- C9.  Table name generation: every successfully generated table name
contains only characters in `[A-Za-z0-9_]`, begins with a non-digit,
respects the 62-character identifier budget, and is not already cached for
a different identifier (collisions resolved by the numeric suffix);
moreover the sanitized datapoint identifier itself is non-empty, never
starts with a digit (a filler is prefixed when it would), stays within its
48-character budget, and uses only the permitted character set.  The prefix
is assumed non-empty, within the character set, and not digit-initial (true
of every sanitized table prefix such as `"history"`), and the collision
fuel bounded so the numeric suffix fits the budget. -/
theorem c9_table_name_generation :
    (∀ (cache : List (String × TableInfo)) (p : List Char) (id : String) (fuel : ℕ)
      (name : List Char),
      p ≠ [] → (∀ c ∈ p, allowedIdentChar c = true) → headIsDigit p = false →
      fuel + 1 ≤ 10 ^ 50 →
      generateTableName cache p id fuel = some name →
      (∀ c ∈ name, allowedIdentChar c = true) ∧ headIsDigit name = false ∧
        name.length ≤ 62 ∧ isTableNameInUse cache name id = false) ∧
    (∀ id : String, sanitizeDatapointIdentifier id ≠ [] ∧
      headIsDigit (sanitizeDatapointIdentifier id) = false ∧
      (sanitizeDatapointIdentifier id).length ≤ 48 ∧
      ∀ c ∈ sanitizeDatapointIdentifier id, allowedIdentChar c = true) := by
  constructor
  · intro cache p id fuel name hp hpa hpd hf h
    rw [generateTableName] at h
    split at h
    · next hfree =>
      injection h with h
      subst h
      simp only [Bool.not_eq_true'] at hfree
      have hbase : ∀ c ∈ (p ++ '_' :: sanitizeDatapointIdentifier id),
          allowedIdentChar c = true := by
        intro c hc
        rcases List.mem_append.mp hc with hc | hc
        · exact hpa c hc
        · rcases List.mem_cons.mp hc with rfl | hc
          · rfl
          · exact sanitize_allowed id c hc
      refine ⟨?_, ?_, ?_, hfree⟩
      · intro c hc
        rw [normalizeLength] at hc
        split at hc
        · exact hbase c hc
        · exact hbase c ((List.take_sublist _ _).mem hc)
      · rw [normalizeLength]
        split
        · rw [headIsDigit_append hp, hpd]
        · rw [headIsDigit_take (by norm_num), headIsDigit_append hp, hpd]
      · rw [normalizeLength]
        split
        · next hle => exact hle
        · exact List.length_take_le _ _
    · exact genLoop_spec cache p (sanitizeDatapointIdentifier id) id hp hpa hpd
        (sanitize_allowed id) fuel 1 name (by omega) h
  · intro id
    exact ⟨sanitize_ne_nil id, sanitize_head id, sanitize_len id, sanitize_allowed id⟩

/-- Witness for C9: identifier `"3abc!!def"` with prefix `"history"` whose
base name is already cached for a different identifier receives the numeric
suffix `_1`; the result uses the permitted character set, starts with a
non-digit, fits the budget, and is distinct from every cached name. -/
theorem c9_witness :
    (∀ c ∈ ("history_s_3abc_def_1".data), allowedIdentChar c = true) ∧
    headIsDigit "history_s_3abc_def_1".data = false ∧
    ("history_s_3abc_def_1".data).length ≤ 62 ∧
    isTableNameInUse [("other.id", ⟨"history_s_3abc_def", ValueType.number⟩)]
      "history_s_3abc_def_1".data "3abc!!def" = false :=
  c9_table_name_generation.1 [("other.id", ⟨"history_s_3abc_def", ValueType.number⟩)]
    "history".data "3abc!!def" 5 "history_s_3abc_def_1".data
    (by decide) (by decide) (by decide) (by norm_num) (by decide)

/-! ## JSON parser round-trip lemmas -/

theorem digit_eq_digitChar {c : Char} (h : isDigit10 c = true) :
    ∃ d, d < 10 ∧ c = digitChar d := by
  simp only [isDigit10, Bool.and_eq_true, decide_eq_true_eq] at h
  have h1 : 48 ≤ c.toNat := by
    have hl := h.1
    rw [Char.le_def, UInt32.le_def] at hl
    have h2 : ('0'.val.toNat : ℕ) ≤ c.val.toNat := hl
    simpa [Char.toNat] using h2
  have h2 : c.toNat ≤ 57 := by
    have hl := h.2
    rw [Char.le_def, UInt32.le_def] at hl
    have h3 : (c.val.toNat : ℕ) ≤ '9'.val.toNat := hl
    simpa [Char.toNat] using h3
  refine ⟨c.toNat - 48, by omega, ?_⟩
  rw [digitChar, show 48 + (c.toNat - 48) = c.toNat by omega, Char.ofNat_toNat]

theorem parseStrBody_cons (c : Char) (rest : List Char) :
    parseStrBody (c :: rest) =
      (if c = '"' then some ([], rest)
       else if c = '\\' then
         match rest with
         | [] => none
         | d :: rest2 =>
           if d = '"' || d = '\\' then
             match parseStrBody rest2 with
             | none => none
             | some (s, r) => some (d :: s, r)
           else none
       else
         match parseStrBody rest with
         | none => none
         | some (s, r) => some (c :: s, r)) := by
  rw [parseStrBody.eq_def]

theorem parseStrBody_esc (c : Char) (hc : (c = '"' || c = '\\') = true) (rest : List Char) :
    parseStrBody ('\\' :: c :: rest) =
      (match parseStrBody rest with
       | none => none
       | some (s, r) => some (c :: s, r)) := by
  rw [parseStrBody_cons, if_neg (by decide : ¬('\\' = '"')), if_pos rfl]
  show (if (c = '"' || c = '\\') = true then
      (match parseStrBody rest with
       | none => none
       | some (s, r) => some (c :: s, r))
    else none) = _
  rw [if_pos hc]

theorem parseStrBody_plain (c : Char) (h1 : ¬(c = '"')) (h2 : ¬(c = '\\'))
    (rest : List Char) :
    parseStrBody (c :: rest) =
      (match parseStrBody rest with
       | none => none
       | some (s, r) => some (c :: s, r)) := by
  rw [parseStrBody_cons, if_neg h1, if_neg h2]

theorem parseStrBody_escape (s : List Char) :
    ∀ rest, parseStrBody (escapeChars s ++ '"' :: rest) = some (s, rest) := by
  induction s with
  | nil =>
    intro rest
    show parseStrBody ([] ++ '"' :: rest) = some ([], rest)
    rw [List.nil_append, parseStrBody_cons, if_pos rfl]
  | cons c t ih =>
    intro rest
    by_cases hc : (c = '"' || c = '\\') = true
    · rw [show escapeChars (c :: t) = '\\' :: c :: escapeChars t from by
        rw [escapeChars, if_pos hc]; rfl]
      rw [List.cons_append, List.cons_append, parseStrBody_esc c hc, ih rest]
    · rw [show escapeChars (c :: t) = c :: escapeChars t from by
        rw [escapeChars, if_neg hc]; rfl]
      have hc2 : ¬(c = '"') ∧ ¬(c = '\\') := by
        simp only [Bool.or_eq_true, decide_eq_true_eq] at hc
        push_neg at hc
        exact hc
      rw [List.cons_append, parseStrBody_plain c hc2.1 hc2.2, ih rest]

theorem natChars_head (n : ℕ) : ∃ d t, d < 10 ∧ natChars n = digitChar d :: t := by
  obtain ⟨c, t, hct⟩ := List.exists_cons_of_ne_nil (natChars_ne_nil n)
  have hc : isDigit10 c = true := natChars_digits (by rw [hct]; simp)
  obtain ⟨d, hd, rfl⟩ := digit_eq_digitChar hc
  exact ⟨d, t, hd, hct⟩

theorem parseNumTok_natChars (m : ℕ) (rest : List Char) (h : goodTail rest) :
    parseNumTok (natChars m ++ rest) = some ((m : ℤ), rest) := by
  have hdig : ∀ c ∈ natChars m, isDigit10 c = true := fun c hc => natChars_digits hc
  have htk := takeWhile_append_all hdig h
  obtain ⟨d, t, hd, hshape⟩ := natChars_head m
  have hne : ¬(digitChar d = '-') := by
    have hdd := isDigit10_digitChar hd
    intro hcon
    rw [hcon] at hdd
    exact absurd hdd (by decide)
  have key : parseNumTok ((digitChar d :: t) ++ rest) = some ((m : ℤ), rest) := by
    rw [List.cons_append]
    have hunf : parseNumTok (digitChar d :: (t ++ rest)) =
        (if digitChar d = '-' then
          match takeDigits (t ++ rest) with
          | [] => none
          | e :: ds => some (-(digitsVal (e :: ds) : ℤ), dropDigits (t ++ rest))
        else if isDigit10 (digitChar d) then
          some ((digitsVal (takeDigits (digitChar d :: (t ++ rest))) : ℤ),
            dropDigits (digitChar d :: (t ++ rest)))
        else none) := rfl
    rw [hunf, if_neg hne, if_pos (isDigit10_digitChar hd)]
    rw [show digitChar d :: (t ++ rest) = natChars m ++ rest by
      rw [hshape, List.cons_append]]
    rw [show takeDigits (natChars m ++ rest) = natChars m from htk.1,
        show dropDigits (natChars m ++ rest) = rest from htk.2,
        natChars_val]
  rw [hshape]
  exact key

theorem parseNumTok_intChars (n : ℤ) (rest : List Char) (h : goodTail rest) :
    parseNumTok (intChars n ++ rest) = some (n, rest) := by
  rw [intChars]
  by_cases hn : n < 0
  · rw [if_pos hn]
    simp only [List.cons_append]
    have hunf : parseNumTok ('-' :: (natChars n.natAbs ++ rest)) =
        (match takeDigits (natChars n.natAbs ++ rest) with
         | [] => none
         | e :: ds =>
           some (-(digitsVal (e :: ds) : ℤ), dropDigits (natChars n.natAbs ++ rest))) := rfl
    rw [hunf]
    have hdig : ∀ c ∈ natChars n.natAbs, isDigit10 c = true :=
      fun c hc => natChars_digits hc
    have htk := takeWhile_append_all hdig h
    rw [show takeDigits (natChars n.natAbs ++ rest) = natChars n.natAbs from htk.1,
        show dropDigits (natChars n.natAbs ++ rest) = rest from htk.2]
    obtain ⟨c, t, hct⟩ := List.exists_cons_of_ne_nil (natChars_ne_nil n.natAbs)
    rw [hct]
    show some (-(digitsVal (c :: t) : ℤ), rest) = some (n, rest)
    rw [← hct, natChars_val]
    simp only [Option.some.injEq, Prod.mk.injEq, and_true]
    omega
  · rw [if_neg hn]
    rw [parseNumTok_natChars n.natAbs rest h]
    simp only [Option.some.injEq, Prod.mk.injEq, and_true]
    omega

theorem parseVal_succ (f : ℕ) (l : List Char) :
    parseVal (f + 1) l =
      (match skipWs l with
       | 'n' :: 'u' :: 'l' :: 'l' :: r => some (.null, r)
       | 't' :: 'r' :: 'u' :: 'e' :: r => some (.bool true, r)
       | 'f' :: 'a' :: 'l' :: 's' :: 'e' :: r => some (.bool false, r)
       | '"' :: r =>
         match parseStrBody r with
         | none => none
         | some (s, r2) => some (.str (String.mk s), r2)
       | '[' :: r =>
         match skipWs r with
         | ']' :: r2 => some (.arr [], r2)
         | _ =>
           match parseItems f r with
           | none => none
           | some (es, r2) => some (.arr es, r2)
       | '{' :: r =>
         match skipWs r with
         | '}' :: r2 => some (.obj [], r2)
         | _ =>
           match parseFields f r with
           | none => none
           | some (fs, r2) => some (.obj fs, r2)
       | c :: r =>
         if c = '-' || isDigit10 c then
           match parseNumTok (c :: r) with
           | none => none
           | some (n, r2) => some (.num n, r2)
         else none
       | [] => none) := by
  rw [parseVal.eq_def]

theorem parseVal_null (f : ℕ) (r : List Char) :
    parseVal (f + 1) ('n' :: 'u' :: 'l' :: 'l' :: r) = some (.null, r) := by
  rw [parseVal_succ, skipWs_cons (by decide)]; rfl

theorem parseVal_true (f : ℕ) (r : List Char) :
    parseVal (f + 1) ('t' :: 'r' :: 'u' :: 'e' :: r) = some (.bool true, r) := by
  rw [parseVal_succ, skipWs_cons (by decide)]; rfl

theorem parseVal_false (f : ℕ) (r : List Char) :
    parseVal (f + 1) ('f' :: 'a' :: 'l' :: 's' :: 'e' :: r) = some (.bool false, r) := by
  rw [parseVal_succ, skipWs_cons (by decide)]; rfl

theorem parseVal_quote (f : ℕ) (r : List Char) :
    parseVal (f + 1) ('"' :: r) =
      (match parseStrBody r with
       | none => none
       | some (s, r2) => some (.str (String.mk s), r2)) := by
  rw [parseVal_succ, skipWs_cons (by decide)]; rfl

theorem parseVal_minus (f : ℕ) (r : List Char) :
    parseVal (f + 1) ('-' :: r) =
      (match parseNumTok ('-' :: r) with
       | none => none
       | some (n, r2) => some (.num n, r2)) := by
  rw [parseVal_succ, skipWs_cons (by decide)]; rfl

theorem parseVal_digit (d : ℕ) (hd : d < 10) (f : ℕ) (r : List Char) :
    parseVal (f + 1) (digitChar d :: r) =
      (match parseNumTok (digitChar d :: r) with
       | none => none
       | some (n, r2) => some (.num n, r2)) := by
  interval_cases d <;> rw [parseVal_succ, skipWs_cons (by decide)] <;> rfl

theorem parseVal_lbrack_nil (f : ℕ) (r : List Char) :
    parseVal (f + 1) ('[' :: ']' :: r) = some (.arr [], r) := rfl

theorem parseVal_lbrace_nil (f : ℕ) (r : List Char) :
    parseVal (f + 1) ('{' :: '}' :: r) = some (.obj [], r) := rfl

theorem parseVal_lbrack_go (f : ℕ) (r : List Char) (c : Char) (X : List Char)
    (hr : skipWs r = c :: X) (hc : ¬(c = ']')) :
    parseVal (f + 1) ('[' :: r) =
      (match parseItems f r with
       | none => none
       | some (es, r2) => some (.arr es, r2)) := by
  rw [parseVal_succ, skipWs_cons (by decide)]
  show (match skipWs r with
       | ']' :: r2 => some (Json.arr [], r2)
       | _ =>
         match parseItems f r with
         | none => none
         | some (es, r2) => some (.arr es, r2)) = _
  rw [hr]
  split
  · next r2 heq =>
    exfalso
    injection heq with h1 h2
    exact hc h1
  · rfl

theorem parseVal_lbrace_go (f : ℕ) (r : List Char) (c : Char) (X : List Char)
    (hr : skipWs r = c :: X) (hc : ¬(c = '}')) :
    parseVal (f + 1) ('{' :: r) =
      (match parseFields f r with
       | none => none
       | some (fs, r2) => some (.obj fs, r2)) := by
  rw [parseVal_succ, skipWs_cons (by decide)]
  show (match skipWs r with
       | '}' :: r2 => some (Json.obj [], r2)
       | _ =>
         match parseFields f r with
         | none => none
         | some (fs, r2) => some (.obj fs, r2)) = _
  rw [hr]
  split
  · next r2 heq =>
    exfalso
    injection heq with h1 h2
    exact hc h1
  · rfl

theorem parseItems_succ (f : ℕ) (l : List Char) :
    parseItems (f + 1) l =
      (match parseVal f l with
       | none => none
       | some (v, r) =>
         match skipWs r with
         | ',' :: r2 =>
           match parseItems f r2 with
           | none => none
           | some (vs, r3) => some (v :: vs, r3)
         | ']' :: r2 => some ([v], r2)
         | _ => none) := by
  rw [parseItems.eq_def]

theorem parseFields_quote (f : ℕ) (r : List Char) :
    parseFields (f + 1) ('"' :: r) =
      (match parseStrBody r with
       | none => none
       | some (k, r2) =>
         match skipWs r2 with
         | ':' :: r3 =>
           match parseVal f r3 with
           | none => none
           | some (v, r4) =>
             match skipWs r4 with
             | ',' :: r5 =>
               match parseFields f r5 with
               | none => none
               | some (fs, r6) => some ((String.mk k, v) :: fs, r6)
             | '}' :: r5 => some ([(String.mk k, v)], r5)
             | _ => none
         | _ => none) := rfl

theorem goodTail_cons {c : Char} (h : isDigit10 c = false) (rest : List Char) :
    goodTail (c :: rest) := by
  intro d hd
  injection hd with h2
  rw [← h2]
  exact h

theorem charsElems_one (e : Json) : Json.charsElems [e] = e.chars := rfl

theorem charsElems_cons (e e2 : Json) (es : List Json) :
    Json.charsElems (e :: e2 :: es) = e.chars ++ ',' :: Json.charsElems (e2 :: es) := rfl

theorem charsFields_one (k : String) (v : Json) :
    Json.charsFields [(k, v)] = '"' :: (escapeChars k.data ++ '"' :: ':' :: v.chars) := rfl

theorem charsFields_cons (k : String) (v : Json) (p : String × Json)
    (fs : List (String × Json)) :
    Json.charsFields ((k, v) :: p :: fs) =
      ('"' :: (escapeChars k.data ++ '"' :: ':' :: v.chars)) ++
        ',' :: Json.charsFields (p :: fs) := rfl

theorem chars_ne_nil (j : Json) : j.chars ≠ [] := by
  cases j with
  | null => decide
  | bool b => cases b <;> decide
  | num n =>
    show intChars n ≠ []
    rw [intChars]
    by_cases hn : n < 0
    · simp [hn]
    · simp only [hn, if_false]
      exact natChars_ne_nil _
  | str s =>
    show '"' :: (escapeChars s.data ++ ['"']) ≠ []
    simp
  | arr es =>
    show '[' :: (Json.charsElems es ++ [']']) ≠ []
    simp
  | obj fs =>
    show '{' :: (Json.charsFields fs ++ ['}']) ≠ []
    simp

theorem chars_head (j : Json) :
    ∃ c t, j.chars = c :: t ∧ jsonWs c = false ∧ ¬(c = ']') ∧ ¬(c = '}') := by
  cases j with
  | null => exact ⟨'n', _, rfl, by decide, by decide, by decide⟩
  | bool b =>
    cases b with
    | false => exact ⟨'f', _, rfl, by decide, by decide, by decide⟩
    | true => exact ⟨'t', _, rfl, by decide, by decide, by decide⟩
  | num n =>
    by_cases hn : n < 0
    · refine ⟨'-', natChars n.natAbs, ?_, by decide, by decide, by decide⟩
      show intChars n = _
      rw [intChars, if_pos hn]
    · obtain ⟨d, t, hd, hshape⟩ := natChars_head n.natAbs
      refine ⟨digitChar d, t, ?_, ?_, ?_, ?_⟩
      · show intChars n = _
        rw [intChars, if_neg hn, hshape]
      · interval_cases d <;> decide
      · interval_cases d <;> decide
      · interval_cases d <;> decide
  | str s => exact ⟨'"', _, rfl, by decide, by decide, by decide⟩
  | arr es => refine ⟨'[', _, rfl, ?_, ?_, ?_⟩ <;> decide
  | obj fs => refine ⟨'{', _, rfl, ?_, ?_, ?_⟩ <;> decide

theorem parse_roundtrip (f : ℕ) :
    (∀ (j : Json) (rest : List Char), j.chars.length ≤ f → goodTail rest →
      parseVal f (j.chars ++ rest) = some (j, rest)) ∧
    (∀ (es : List Json) (rest : List Char), es ≠ [] →
      (Json.charsElems es).length + 1 ≤ f →
      parseItems f (Json.charsElems es ++ ']' :: rest) = some (es, rest)) ∧
    (∀ (fs : List (String × Json)) (rest : List Char), fs ≠ [] →
      (Json.charsFields fs).length + 1 ≤ f →
      parseFields f (Json.charsFields fs ++ '}' :: rest) = some (fs, rest)) := by
  induction f using Nat.strong_induction_on with
  | _ f IH =>
  refine ⟨?_, ?_, ?_⟩
  · intro j rest hlen htail
    have hpos : 0 < j.chars.length := List.length_pos.mpr (chars_ne_nil j)
    obtain ⟨f', rfl⟩ : ∃ f', f = f' + 1 := ⟨f - 1, by omega⟩
    cases j with
    | null =>
      rw [show Json.chars Json.null ++ rest = 'n' :: 'u' :: 'l' :: 'l' :: rest from rfl]
      exact parseVal_null f' rest
    | bool b =>
      cases b with
      | true =>
        rw [show Json.chars (Json.bool true) ++ rest
            = 't' :: 'r' :: 'u' :: 'e' :: rest from rfl]
        exact parseVal_true f' rest
      | false =>
        rw [show Json.chars (Json.bool false) ++ rest
            = 'f' :: 'a' :: 'l' :: 's' :: 'e' :: rest from rfl]
        exact parseVal_false f' rest
    | num n =>
      by_cases hn : n < 0
      · rw [show Json.chars (Json.num n) ++ rest = '-' :: (natChars n.natAbs ++ rest) from by
          show intChars n ++ rest = _
          rw [intChars, if_pos hn, List.cons_append]]
        rw [parseVal_minus]
        rw [show '-' :: (natChars n.natAbs ++ rest) = intChars n ++ rest from by
          rw [intChars, if_pos hn, List.cons_append]]
        rw [parseNumTok_intChars n rest htail]
      · obtain ⟨d, t, hd, hshape⟩ := natChars_head n.natAbs
        rw [show Json.chars (Json.num n) ++ rest = digitChar d :: (t ++ rest) from by
          show intChars n ++ rest = _
          rw [intChars, if_neg hn, hshape, List.cons_append]]
        rw [parseVal_digit d hd]
        rw [show digitChar d :: (t ++ rest) = intChars n ++ rest from by
          rw [intChars, if_neg hn, hshape, List.cons_append]]
        rw [parseNumTok_intChars n rest htail]
    | str s =>
      rw [show Json.chars (Json.str s) ++ rest
          = '"' :: (escapeChars s.data ++ '"' :: rest) from by
        show ('"' :: (escapeChars s.data ++ ['"'])) ++ rest = _
        simp]
      rw [parseVal_quote, parseStrBody_escape s.data rest]
    | arr es =>
      cases es with
      | nil =>
        rw [show Json.chars (Json.arr []) ++ rest = '[' :: ']' :: rest from rfl]
        exact parseVal_lbrack_nil f' rest
      | cons e es' =>
        obtain ⟨c, t, hct, hws, hbr, hbc⟩ := chars_head e
        have hsh : Json.chars (Json.arr (e :: es')) ++ rest
            = '[' :: (Json.charsElems (e :: es') ++ ']' :: rest) := by
          show ('[' :: (Json.charsElems (e :: es') ++ [']'])) ++ rest = _
          simp
        have hform : ∃ X, Json.charsElems (e :: es') ++ ']' :: rest = c :: X := by
          cases es' with
          | nil =>
            refine ⟨t ++ ']' :: rest, ?_⟩
            rw [charsElems_one, hct, List.cons_append]
          | cons e2 es'' =>
            refine ⟨(t ++ ',' :: Json.charsElems (e2 :: es'')) ++ ']' :: rest, ?_⟩
            rw [charsElems_cons, hct]
            simp
        obtain ⟨X, hX⟩ := hform
        have hskip : skipWs (Json.charsElems (e :: es') ++ ']' :: rest) = c :: X := by
          rw [hX]
          exact skipWs_cons hws
        rw [hsh, parseVal_lbrack_go f' _ c X hskip hbr]
        have hlen2 : (Json.charsElems (e :: es')).length + 1 ≤ f' := by
          have h3 : (Json.chars (Json.arr (e :: es'))).length
              = (Json.charsElems (e :: es')).length + 2 := by
            show ('[' :: (Json.charsElems (e :: es') ++ [']'])).length = _
            simp
          omega
        rw [(IH f' (by omega)).2.1 (e :: es') rest (by simp) hlen2]
    | obj fs =>
      cases fs with
      | nil =>
        rw [show Json.chars (Json.obj []) ++ rest = '{' :: '}' :: rest from rfl]
        exact parseVal_lbrace_nil f' rest
      | cons p fs' =>
        have hsh : Json.chars (Json.obj (p :: fs')) ++ rest
            = '{' :: (Json.charsFields (p :: fs') ++ '}' :: rest) := by
          show ('{' :: (Json.charsFields (p :: fs') ++ ['}'])) ++ rest = _
          simp
        obtain ⟨k, v⟩ := p
        have hform : ∃ X, Json.charsFields ((k, v) :: fs') ++ '}' :: rest = '"' :: X := by
          cases fs' with
          | nil =>
            refine ⟨(escapeChars k.data ++ '"' :: ':' :: v.chars) ++ '}' :: rest, ?_⟩
            rw [charsFields_one, List.cons_append]
          | cons p2 fs'' =>
            refine ⟨((escapeChars k.data ++ '"' :: ':' :: v.chars)
              ++ ',' :: Json.charsFields (p2 :: fs'')) ++ '}' :: rest, ?_⟩
            rw [charsFields_cons]
            simp
        obtain ⟨X, hX⟩ := hform
        have hskip : skipWs (Json.charsFields ((k, v) :: fs') ++ '}' :: rest) = '"' :: X := by
          rw [hX]
          exact skipWs_cons (by decide)
        rw [hsh, parseVal_lbrace_go f' _ '"' X hskip (by decide)]
        have hlen2 : (Json.charsFields ((k, v) :: fs')).length + 1 ≤ f' := by
          have h3 : (Json.chars (Json.obj ((k, v) :: fs'))).length
              = (Json.charsFields ((k, v) :: fs')).length + 2 := by
            show ('{' :: (Json.charsFields ((k, v) :: fs') ++ ['}'])).length = _
            simp
          omega
        rw [(IH f' (by omega)).2.2 ((k, v) :: fs') rest (by simp) hlen2]
  · intro es rest hne hlen
    obtain ⟨e, es', rfl⟩ := List.exists_cons_of_ne_nil hne
    obtain ⟨f', rfl⟩ : ∃ f', f = f' + 1 := ⟨f - 1, by omega⟩
    rw [parseItems_succ]
    cases es' with
    | nil =>
      have hlen1 : e.chars.length ≤ f' := by
        rw [charsElems_one] at hlen
        omega
      have h1 := (IH f' (by omega)).1 e (']' :: rest) hlen1 (goodTail_cons (by decide) rest)
      rw [charsElems_one]
      simp only [h1,
        show skipWs (']' :: rest) = ']' :: rest from skipWs_cons (by decide)]
    | cons e2 es'' =>
      have hee : 1 ≤ e.chars.length := List.length_pos.mpr (chars_ne_nil e)
      have hlen_eq : (Json.charsElems (e :: e2 :: es'')).length
          = e.chars.length + 1 + (Json.charsElems (e2 :: es'')).length := by
        rw [charsElems_cons]
        simp
        omega
      have hlen1 : e.chars.length ≤ f' := by omega
      have hlen2 : (Json.charsElems (e2 :: es'')).length + 1 ≤ f' := by omega
      have h1 := (IH f' (by omega)).1 e
        (',' :: (Json.charsElems (e2 :: es'') ++ ']' :: rest)) hlen1
        (goodTail_cons (by decide) _)
      have h2 := (IH f' (by omega)).2.1 (e2 :: es'') rest (by simp) hlen2
      rw [charsElems_cons]
      rw [show (e.chars ++ ',' :: Json.charsElems (e2 :: es'')) ++ ']' :: rest
          = e.chars ++ (',' :: (Json.charsElems (e2 :: es'') ++ ']' :: rest)) from by simp]
      simp only [h1,
        show skipWs (',' :: (Json.charsElems (e2 :: es'') ++ ']' :: rest))
          = ',' :: (Json.charsElems (e2 :: es'') ++ ']' :: rest) from skipWs_cons (by decide),
        h2]
  · intro fs rest hne hlen
    obtain ⟨p, fs', rfl⟩ := List.exists_cons_of_ne_nil hne
    obtain ⟨k, v⟩ := p
    obtain ⟨f', rfl⟩ : ∃ f', f = f' + 1 := ⟨f - 1, by omega⟩
    have hvpos : 1 ≤ v.chars.length := List.length_pos.mpr (chars_ne_nil v)
    cases fs' with
    | nil =>
      rw [charsFields_one]
      rw [show ('"' :: (escapeChars k.data ++ '"' :: ':' :: v.chars)) ++ '}' :: rest
          = '"' :: (escapeChars k.data ++ '"' :: (':' :: (v.chars ++ '}' :: rest)))
        from by simp]
      rw [parseFields_quote]
      have hlen1 : v.chars.length ≤ f' := by
        rw [charsFields_one] at hlen
        simp at hlen
        omega
      have h1 := (IH f' (by omega)).1 v ('}' :: rest) hlen1 (goodTail_cons (by decide) rest)
      simp only [parseStrBody_escape k.data,
        show skipWs (':' :: (v.chars ++ '}' :: rest)) = ':' :: (v.chars ++ '}' :: rest)
          from skipWs_cons (by decide),
        h1,
        show skipWs ('}' :: rest) = '}' :: rest from skipWs_cons (by decide)]
    | cons p2 fs'' =>
      rw [charsFields_cons]
      rw [show (('"' :: (escapeChars k.data ++ '"' :: ':' :: v.chars))
            ++ ',' :: Json.charsFields (p2 :: fs'')) ++ '}' :: rest
          = '"' :: (escapeChars k.data ++ '"' :: (':' :: (v.chars
            ++ ',' :: (Json.charsFields (p2 :: fs'') ++ '}' :: rest)))) from by simp]
      rw [parseFields_quote]
      have hlen_eq : (Json.charsFields ((k, v) :: p2 :: fs'')).length
          = (escapeChars k.data).length + 3 + v.chars.length + 1
            + (Json.charsFields (p2 :: fs'')).length := by
        rw [charsFields_cons]
        simp
        omega
      have hlen1 : v.chars.length ≤ f' := by omega
      have hlen2 : (Json.charsFields (p2 :: fs'')).length + 1 ≤ f' := by omega
      have h1 := (IH f' (by omega)).1 v
        (',' :: (Json.charsFields (p2 :: fs'') ++ '}' :: rest)) hlen1
        (goodTail_cons (by decide) _)
      have h2 := (IH f' (by omega)).2.2 (p2 :: fs'') rest (by simp) hlen2
      simp only [parseStrBody_escape k.data,
        show skipWs (':' :: (v.chars ++ ',' :: (Json.charsFields (p2 :: fs'') ++ '}' :: rest)))
            = ':' :: (v.chars ++ ',' :: (Json.charsFields (p2 :: fs'') ++ '}' :: rest))
          from skipWs_cons (by decide),
        h1,
        show skipWs (',' :: (Json.charsFields (p2 :: fs'') ++ '}' :: rest))
            = ',' :: (Json.charsFields (p2 :: fs'') ++ '}' :: rest)
          from skipWs_cons (by decide),
        h2]

theorem jsonParse_stringify (j : Json) : jsonParse j.stringify = some j := by
  have h1 := (parse_roundtrip (j.chars.length + 1)).1 j [] (by omega)
    (by intro c hc; simp at hc)
  rw [List.append_nil] at h1
  show (match parseVal (j.chars.length + 1) j.chars with
    | some (v, r) => if skipWs r = [] then some v else none
    | none => none) = some j
  rw [h1]
  rfl

theorem prepareValue_shape {v : JSVal} {s : Settings} {c : Converted}
    (h : prepareValue v s = .ok c) :
    c.value = c.comparable ∧ cmpWellTyped c.type c.value = true := by
  obtain ⟨st, bt, co, iz, ib, ia, ro, cr, cm, ed, ds⟩ := s
  cases v with
  | null =>
    injection h with h2
    subst h2
    exact ⟨rfl, rfl⟩
  | undef =>
    injection h with h2
    subst h2
    exact ⟨rfl, rfl⟩
  | nan =>
    cases st <;>
      first
        | (injection h with h2; subst h2; exact ⟨rfl, rfl⟩)
        | injection h
  | num q =>
    cases st <;> (injection h with h2; subst h2; exact ⟨rfl, rfl⟩)
  | str s2 =>
    cases st with
    | number =>
      have h' : (match strToNum s2 with
          | none => (.error "Cannot convert value to number" : Except String Converted)
          | some q =>
            .ok ⟨.number, .num (toRoundedNumber ro q), .num (toRoundedNumber ro q)⟩)
          = .ok c := h
      cases hq : strToNum s2 with
      | none =>
        rw [hq] at h'
        injection h'
      | some q =>
        rw [hq] at h'
        injection h' with h2
        subst h2
        exact ⟨rfl, rfl⟩
    | string =>
      injection h with h2
      subst h2
      exact ⟨rfl, rfl⟩
    | boolean =>
      injection h with h2
      subst h2
      exact ⟨rfl, rfl⟩
    | json =>
      injection h with h2
      subst h2
      exact ⟨rfl, rfl⟩
    | auto =>
      injection h with h2
      subst h2
      exact ⟨rfl, rfl⟩
  | bool b =>
    cases st <;> (injection h with h2; subst h2; exact ⟨rfl, rfl⟩)
  | obj j =>
    cases st <;>
      first
        | (injection h with h2; subst h2; exact ⟨rfl, rfl⟩)
        | injection h

/-- C3 (amended).  Encode/decode round-trip per type tag: for the `number`,
`string`, `boolean` and `null` tags, decoding the stored representation of
any converted value produced by `prepareValue` yields exactly the comparable
key (as a runtime value); for the `json` tag the decoded value is equal to
the comparable key under the json type's canonical-serialization equality
whenever the raw value was not a string (a string stored under the json type
is decoded via `JSON.parse`, which need not reproduce the comparable key —
see the counterexample). -/
theorem c3_round_trip :
    (∀ (v : JSVal) (s : Settings) (c : Converted), prepareValue v s = .ok c →
      (c.type = .number ∨ c.type = .string ∨ c.type = .boolean ∨ c.type = .null) →
      decodeValue c.type (encodeValue c.type c.value) = cmpToJSVal c.comparable) ∧
    (∀ (v : JSVal) (s : Settings) (c : Converted), prepareValue v s = .ok c →
      c.type = .json → (∀ str, ¬(v = .str str)) →
      (∀ j, v = .obj j → j.structured = true) →
      jsonCanon (decodeValue .json (encodeValue .json c.value))
        = cmpToString c.comparable) := by
  constructor
  · intro v s c h htag
    obtain ⟨hvc, hwt⟩ := prepareValue_shape h
    rw [← hvc]
    rcases htag with ht | ht | ht | ht <;> rw [ht] at hwt ⊢ <;>
      cases hcv : c.value <;> rw [hcv] at hwt <;>
        first
          | exact Bool.noConfusion hwt
          | (rename_i b; cases b <;> rfl)
          | rfl
  · intro v s c h htype hnstr hstruct
    obtain ⟨st, bt, co, iz, ib, ia, ro, cr, cm, ed, ds⟩ := s
    cases v with
    | null =>
      injection h with h2
      subst h2
      cases htype
    | undef =>
      injection h with h2
      subst h2
      cases htype
    | nan =>
      cases st with
      | number => injection h
      | string => injection h with h2; subst h2; cases htype
      | boolean => injection h with h2; subst h2; cases htype
      | json =>
        injection h with h2
        subst h2
        decide
      | auto => injection h
    | num q =>
      cases st with
      | number => injection h with h2; subst h2; cases htype
      | string => injection h with h2; subst h2; cases htype
      | boolean => injection h with h2; subst h2; cases htype
      | json =>
        injection h with h2
        subst h2
        by_cases hq : q.den = 1
        · have hqq : (q.num : ℚ) = q := (Rat.den_eq_one_iff q).mp hq
          have hs : numToString q = Json.stringify (.num q.num) := by
            rw [numToString, if_pos hq]
            rfl
          show jsonCanon (match jsonParse (numToString q) with
            | some j2 => jsonToJSVal j2
            | none => cmpToJSVal (Cmp.str (numToString q))) = numToString q
          rw [hs, jsonParse_stringify]
          show numToString ((q.num : ℚ)) = Json.stringify (.num q.num)
          rw [hqq, hs]
        · have hs2 : (numToString q).data = intChars q.num ++ '/' :: natChars q.den := by
            rw [numToString, if_neg hq]
            simp [String.data_append]
          have hnone : jsonParse (numToString q) = none := by
            rw [jsonParse, hs2]
            have h1 := (parse_roundtrip
                ((intChars q.num ++ '/' :: natChars q.den).length + 1)).1
              (.num q.num) ('/' :: natChars q.den)
              (by
                show (intChars q.num).length ≤ _
                simp
                omega)
              (goodTail_cons (by decide) _)
            rw [show Json.chars (Json.num q.num) = intChars q.num from rfl] at h1
            simp only [h1]
            rw [skipWs_cons (by decide)]
            simp
          show jsonCanon (match jsonParse (numToString q) with
            | some j2 => jsonToJSVal j2
            | none => cmpToJSVal (Cmp.str (numToString q))) = numToString q
          rw [hnone]
          rfl
      | auto => injection h with h2; subst h2; cases htype
    | str s2 => exact absurd rfl (hnstr s2)
    | bool b =>
      cases st with
      | number => injection h with h2; subst h2; cases htype
      | string => injection h with h2; subst h2; cases htype
      | boolean => injection h with h2; subst h2; cases htype
      | json =>
        injection h with h2
        subst h2
        cases b <;> decide
      | auto => injection h with h2; subst h2; cases htype
    | obj j =>
      have hj : j.structured = true := hstruct j rfl
      have hmain : jsonCanon (decodeValue .json (encodeValue .json
          (Cmp.str j.stringify))) = cmpToString (Cmp.str j.stringify) := by
        show jsonCanon (match jsonParse j.stringify with
          | some j2 => jsonToJSVal j2
          | none => cmpToJSVal (Cmp.str j.stringify)) = j.stringify
        rw [jsonParse_stringify]
        cases j with
        | arr es => rfl
        | obj fs => rfl
        | null => exact Bool.noConfusion hj
        | bool b2 => exact Bool.noConfusion hj
        | num n => exact Bool.noConfusion hj
        | str s3 => exact Bool.noConfusion hj
      cases st with
      | number => injection h
      | string => injection h with h2; subst h2; cases htype
      | boolean => injection h with h2; subst h2; cases htype
      | json =>
        injection h with h2
        subst h2
        exact hmain
      | auto =>
        injection h with h2
        subst h2
        exact hmain

/-- Counterexample to C3 as stated: under the `json` storage type the raw
string `" true"` converts with comparable key `" true"`, but the decoder
runs `JSON.parse` on the stored string and reconstructs the boolean `true`,
which is not equal to the comparable key under the json type's
canonical-serialization equality. -/
theorem c3_counterexample :
    prepareValue (.str " true") ⟨.json, 0, false, false, none, none, none, 0, 0, false, false⟩
        = .ok ⟨.json, .str " true", .str " true"⟩ ∧
    decodeValue .json (encodeValue .json (Cmp.str " true")) = JSVal.bool true ∧
    jsonCanon (JSVal.bool true) = "true" ∧
    cmpToString (Cmp.str " true") = " true" ∧
    ¬(jsonCanon (decodeValue .json (encodeValue .json (Cmp.str " true")))
        = cmpToString (Cmp.str " true")) := by
  refine ⟨rfl, rfl, rfl, rfl, by decide⟩

/-- Witness for C3 at concrete inputs: a rounded number round-trips exactly,
and an array stored as json round-trips up to canonical serialization. -/
theorem c3_witness :
    decodeValue .number (encodeValue .number (Cmp.num 5)) = cmpToJSVal (Cmp.num 5) ∧
    jsonCanon (decodeValue .json (encodeValue .json (Cmp.str "[1]")))
      = cmpToString (Cmp.str "[1]") := by
  constructor
  · exact c3_round_trip.1 (.num 5)
      ⟨.number, 0, false, false, none, none, none, 0, 0, false, false⟩
      ⟨.number, .num 5, .num 5⟩ rfl (Or.inl rfl)
  · exact c3_round_trip.2 (.obj (.arr [.num 1]))
      ⟨.json, 0, false, false, none, none, none, 0, 0, false, false⟩
      ⟨.json, .str "[1]", .str "[1]"⟩ rfl
      rfl (fun str hs => by cases hs) (fun j hj => by cases hj; rfl)

end ClickhouseAdapter
